import Mathlib

/-!
Verification development for the championship-escrow settlement engine
(`src/contracts/solana/championship_escrow.rs` and
`src/contracts/near/championship_escrow.rs`).

The Solana program is embedded as a pure state machine over `Sol.EscrowState`:
machine integers (`u64`) are modelled as `Nat` together with explicit
`< 2^64` bounds wherever the source uses `checked_add` / `checked_mul` /
`checked_sub`; fallible instructions return `Except Err`.  Account PDAs
(`EnrollRecord`, `BetRecord`, `UserBetTotal`, `VoteRecord`, `ClaimRecord`)
are modelled as per-challenge ledgers inside the state: an accumulating
record (`BetRecord.amount`, `UserBetTotal.total`) is represented by the list
of its individual credit events, the record's amount being the sum of the
events with its key, which coincides with the on-chain accumulated value.
The three optional accounts of `claim` (`enroll_record`,
`winner_bet_record`, `user_bet_total`) carry no seeds or address
constraints in the `Claim` accounts struct, so any existing program-owned
record of the right type validates, whoever owns it; `claim` therefore
takes the presented records as explicit arguments, only requiring (as
Anchor's deserialization does) that a presented record exist.

The NEAR contract is embedded separately in namespace `Near` for the
operations the claims compare across the two variants (`create`, `bet`,
`finalize`).
-/

-- ───────────────────────── Shared constants ─────────────────────────

def U64 : Nat := 2 ^ 64
def U128 : Nat := 2 ^ 128

deriving instance DecidableEq for Except

/-- `u64::checked_add`. -/
def checkedAdd (a b : Nat) : Option Nat :=
  if a + b < U64 then some (a + b) else none

/-- `u64::checked_mul`. -/
def checkedMul (a b : Nat) : Option Nat :=
  if a * b < U64 then some (a * b) else none

/-- `u64::checked_sub`. -/
def checkedSub (a b : Nat) : Option Nat :=
  if b ≤ a then some (a - b) else none

/-- Error taxonomy of both contracts (Solana `EscrowError` plus the
NEAR-only assertion failures `E2`/`E5`/`E15`; `NotFound` also stands for a
required PDA account that does not exist). -/
inductive Err where
  | FeeTooLow
  | BadTimestamps
  | EnrollmentEnded
  | Cancelled
  | WrongFee
  | AlreadyEnrolled
  | AgentTaken
  | NotActive
  | TooFewAgents
  | WrongPhase
  | AgentNotEnrolled
  | ZeroBet
  | AlreadyVoted
  | LowBalance
  | NotEnded
  | CannotCancel
  | NotDone
  | AlreadyClaimed
  | NoPayout
  | MaxAgents
  | InsufficientVault
  | Overflow
  | AgentWithdrawn
  | AlreadyWithdrawn
  | NotAgentOwner
  | ChallengeExists
  | NotFound
  | CreatorBet
deriving DecidableEq

/-- Sum of the values of the association-list entries whose key is `k`
(the accumulated amount of the record keyed `k`). -/
def keySum {κ : Type} [DecidableEq κ] (entries : List (κ × Nat)) (k : κ) : Nat :=
  ((entries.filter (fun e => decide (e.1 = k))).map (fun e => e.2)).sum

namespace Sol

-- Constants from the Solana source.

def MAX_AGENTS : Nat := 64
def MIN_FEE : Nat := 10000000
def MIN_AGENTS : Nat := 3
def MIN_VOTE_BALANCE : Nat := 1000000000

def EW : Nat := 95
def EC : Nat := 4
def EP : Nat := 1
def BW : Nat := 95
def BC : Nat := 2
def BP : Nat := 3

def REFUND_PCT : Nat := 98
def PEEK_FEE_PCT : Nat := 2

/-- The `Challenge` account.  `challenge_id`, `challenge_hash` and the PDA
bump seeds are addressing metadata with no accounting role and are omitted;
accounts (`Pubkey`) and agent ids (`[u8; 32]`) are abstracted as `Nat`. -/
structure Challenge where
  creator : Nat
  platform : Nat
  entry_fee : Nat
  start_time : Int
  end_time : Int
  judge_end : Int
  competition_duration : Int
  refund_duration : Int
  total_entry_pool : Nat
  total_bet_pool : Nat
  agent_count : Nat
  finalized : Bool
  cancelled : Bool
  winner_index : Nat
  agent_ids : List Nat
  agent_owners : List Nat
  vote_counts : List Nat
  agent_bet_pools : List Nat
  withdrawn : List Bool
deriving DecidableEq

/-- `Challenge::active_agent_count`. -/
def Challenge.active_agent_count (ch : Challenge) : Nat :=
  (ch.withdrawn.filter (fun w => !w)).length

/-- `iter().position(|id| id == agent_id)` over the agent id array. -/
def findAgentIdx : List Nat → Nat → Option Nat
  | [], _ => none
  | x :: xs, t => if x = t then some 0 else (findAgentIdx xs t).map (· + 1)

/-- `Challenge::find_agent`. -/
def Challenge.find_agent (ch : Challenge) (aid : Nat) : Option Nat :=
  findAgentIdx ch.agent_ids aid

/-- One challenge's full on-chain state: the `Challenge` account, the SOL
vault PDA balance, the platform wallet balance, and the per-user PDA
ledgers. -/
structure EscrowState where
  ch : Challenge
  vault : Nat
  platformBal : Nat
  enrollRecords : List Nat
  betRecords : List ((Nat × Nat) × Nat)
  userBetTotals : List (Nat × Nat)
  voteRecords : List Nat
  claimRecords : List Nat
deriving DecidableEq

/-- Accumulated `BetRecord.amount` of `(account, agent_id)`. -/
def betOf (s : EscrowState) (account aid : Nat) : Nat :=
  keySum s.betRecords (account, aid)

/-- Accumulated `UserBetTotal.total` of `account`. -/
def ubtOf (s : EscrowState) (account : Nat) : Nat :=
  keySum s.userBetTotals account

-- ───────────────────────── 1. create ─────────────────────────

/-- Instruction `create`. -/
def create (now : Int) (creator platform entry_fee : Nat)
    (start_time end_time judge_end competition_duration refund_duration : Int) :
    Except Err EscrowState :=
  if entry_fee < MIN_FEE then .error .FeeTooLow
  else if ¬ now < start_time then .error .BadTimestamps
  else if ¬ start_time < end_time then .error .BadTimestamps
  else if ¬ end_time < judge_end then .error .BadTimestamps
  else if ¬ 0 < competition_duration then .error .BadTimestamps
  else if ¬ 0 < refund_duration then .error .BadTimestamps
  else .ok
    { ch :=
      { creator := creator, platform := platform, entry_fee := entry_fee,
        start_time := start_time, end_time := end_time, judge_end := judge_end,
        competition_duration := competition_duration,
        refund_duration := refund_duration,
        total_entry_pool := 0, total_bet_pool := 0, agent_count := 0,
        finalized := false, cancelled := false, winner_index := 0,
        agent_ids := [], agent_owners := [], vote_counts := [],
        agent_bet_pools := [], withdrawn := [] },
      vault := 0, platformBal := 0,
      enrollRecords := [], betRecords := [], userBetTotals := [],
      voteRecords := [], claimRecords := [] }

-- ───────────────────────── 2. enroll ─────────────────────────

/-- Instruction `enroll`.  The `init` of the `EnrollRecord` PDA (which
fails when the record already exists) is checked first, as Anchor account
validation runs before the handler body. -/
def enroll (s : EscrowState) (now : Int) (enrollee aid : Nat) :
    Except Err EscrowState :=
  if enrollee ∈ s.enrollRecords then .error .AlreadyEnrolled
  else if ¬ now ≤ s.ch.start_time then .error .EnrollmentEnded
  else if s.ch.cancelled then .error .Cancelled
  else if ¬ s.ch.agent_count < MAX_AGENTS then .error .MaxAgents
  else if aid ∈ s.ch.agent_ids then .error .AgentTaken
  else match checkedAdd s.ch.total_entry_pool s.ch.entry_fee with
    | none => .error .Overflow
    | some pool =>
      .ok { s with
        ch := { s.ch with
          agent_ids := s.ch.agent_ids ++ [aid],
          agent_owners := s.ch.agent_owners ++ [enrollee],
          vote_counts := s.ch.vote_counts ++ [0],
          agent_bet_pools := s.ch.agent_bet_pools ++ [0],
          withdrawn := s.ch.withdrawn ++ [false],
          agent_count := s.ch.agent_count + 1,
          total_entry_pool := pool },
        vault := s.vault + s.ch.entry_fee,
        enrollRecords := enrollee :: s.enrollRecords }

-- ───────────────────────── 3. bet ─────────────────────────

/-- Instruction `bet`. -/
def bet (s : EscrowState) (now : Int) (bettor aid amount : Nat) :
    Except Err EscrowState :=
  if s.ch.cancelled || s.ch.finalized then .error .NotActive
  else if ¬ (s.ch.start_time < now ∧ now ≤ s.ch.end_time) then .error .WrongPhase
  else if ¬ 0 < amount then .error .ZeroBet
  else match s.ch.find_agent aid with
    | none => .error .AgentNotEnrolled
    | some i =>
      if s.ch.withdrawn.getD i false then .error .AgentWithdrawn
      else match checkedAdd (betOf s bettor aid) amount with
        | none => .error .Overflow
        | some _ =>
          match checkedAdd (ubtOf s bettor) amount with
          | none => .error .Overflow
          | some _ =>
            match checkedAdd (s.ch.agent_bet_pools.getD i 0) amount with
            | none => .error .Overflow
            | some poolI =>
              match checkedAdd s.ch.total_bet_pool amount with
              | none => .error .Overflow
              | some tb =>
                .ok { s with
                  ch := { s.ch with
                    agent_bet_pools := s.ch.agent_bet_pools.set i poolI,
                    total_bet_pool := tb },
                  vault := s.vault + amount,
                  betRecords := ((bettor, aid), amount) :: s.betRecords,
                  userBetTotals := (bettor, amount) :: s.userBetTotals }

-- ───────────────────────── 4. vote ─────────────────────────

/-- Instruction `vote`.  `voterBal` is the caller's wallet balance read by
the handler for the minimum-balance gate; the `init` of the `VoteRecord`
PDA is checked first. -/
def vote (s : EscrowState) (now : Int) (voter aid voterBal : Nat) :
    Except Err EscrowState :=
  if voter ∈ s.voteRecords then .error .AlreadyVoted
  else if s.ch.cancelled || s.ch.finalized then .error .NotActive
  else if s.ch.active_agent_count < MIN_AGENTS then .error .TooFewAgents
  else if ¬ (s.ch.end_time < now ∧ now ≤ s.ch.judge_end) then .error .WrongPhase
  else match s.ch.find_agent aid with
    | none => .error .AgentNotEnrolled
    | some i =>
      if s.ch.withdrawn.getD i false then .error .AgentWithdrawn
      else if voterBal < MIN_VOTE_BALANCE then .error .LowBalance
      else match checkedAdd (s.ch.vote_counts.getD i 0) 1 with
        | none => .error .Overflow
        | some v =>
          .ok { s with
            ch := { s.ch with vote_counts := s.ch.vote_counts.set i v },
            voteRecords := voter :: s.voteRecords }

-- ───────────────────────── 5. cancel ─────────────────────────

/-- Instruction `cancel`. -/
def cancel (s : EscrowState) (now : Int) : Except Err EscrowState :=
  if s.ch.finalized || s.ch.cancelled then .error .NotActive
  else if ¬ s.ch.start_time < now then .error .NotEnded
  else if ¬ s.ch.active_agent_count < MIN_AGENTS then .error .CannotCancel
  else .ok { s with ch := { s.ch with cancelled := true } }

-- ───────────────────────── 6. finalize ─────────────────────────

/-- The winner-selection loop of `finalize`: accumulator is
`(winner_idx, max_votes, found_active)`; the two lists are the suffixes of
`vote_counts` and `withdrawn` still to scan, `i` the absolute index of
their head. -/
def winnerAux : List Nat → List Bool → Nat → Nat × Nat × Bool → Nat × Nat × Bool
  | [], _, _, acc => acc
  | _ :: _, [], _, acc => acc
  | v :: vs, w :: ws, i, acc =>
    winnerAux vs ws (i + 1)
      (if w then acc
       else if !acc.2.2 || decide (acc.2.1 < v) then (i, v, true) else acc)

/-- Instruction `finalize`. -/
def finalize (s : EscrowState) (now : Int) : Except Err (EscrowState × Nat) :=
  if s.ch.finalized || s.ch.cancelled then .error .NotActive
  else if ¬ s.ch.judge_end < now then .error .NotEnded
  else if s.ch.active_agent_count < MIN_AGENTS then .error .TooFewAgents
  else
    let wi := (winnerAux s.ch.vote_counts s.ch.withdrawn 0 (0, 0, false)).1
    match checkedMul s.ch.total_entry_pool EP with
    | none => .error .Overflow
    | some ep =>
      match checkedMul s.ch.total_bet_pool BP with
      | none => .error .Overflow
      | some bp =>
        match checkedAdd (ep / 100) (bp / 100) with
        | none => .error .Overflow
        | some fee =>
          if 0 < fee ∧ s.vault < fee then .error .InsufficientVault
          else .ok ({ s with
            ch := { s.ch with winner_index := wi, finalized := true },
            vault := s.vault - fee,
            platformBal := s.platformBal + fee }, fee)

-- ───────────────────────── 7. claim ─────────────────────────

/-- `checked_add(..).ok_or(EscrowError::Overflow)`. -/
def oadd (a b : Nat) : Except Err Nat :=
  match checkedAdd a b with
  | some v => .ok v
  | none => .error .Overflow

/-- `checked_mul(..).ok_or(EscrowError::Overflow)`. -/
def omul (a b : Nat) : Except Err Nat :=
  match checkedMul a b with
  | some v => .ok v
  | none => .error .Overflow

/-- The payout computation inside `claim`, for the presented optional
records `er` (an `EnrollRecord`), `wb` (a `BetRecord`, keyed by its
`(account, agent_id)` pair) and `ub` (a `UserBetTotal`, keyed by its
account).  The source reads only `enroll_record.is_some()`, `wbr.amount`
and `ubt.total` — it never compares a presented record's owner or agent to
the claimant or the winner.  The winning-bettor share is computed in
`u128` — `(bet_payout_pool as u128 * amount) / pool` cannot overflow
there — and then cast back with `as u64` (the `% U64`). -/
def claimPayout (s : EscrowState) (a : Nat) (er : Option Nat)
    (wb : Option (Nat × Nat)) (ub : Option Nat) : Except Err Nat :=
  if s.ch.cancelled then
    match (if er.isSome then oadd 0 s.ch.entry_fee
           else .ok 0 : Except Err Nat) with
    | .error e => .error e
    | .ok p1 =>
      match ub with
      | some u => oadd p1 (ubtOf s u)
      | none => .ok p1
  else
    match (if a = s.ch.agent_owners.getD s.ch.winner_index 0 then
             match omul s.ch.total_entry_pool EW with
             | .error e => .error e
             | .ok ew => oadd 0 (ew / 100)
           else .ok 0 : Except Err Nat) with
    | .error e => .error e
    | .ok p1 =>
      match (if a = s.ch.creator then
               match omul s.ch.total_entry_pool EC with
               | .error e => .error e
               | .ok ec =>
                 match omul s.ch.total_bet_pool BC with
                 | .error e => .error e
                 | .ok bc =>
                   match oadd p1 (ec / 100) with
                   | .error e => .error e
                   | .ok q => oadd q (bc / 100)
             else .ok p1 : Except Err Nat) with
      | .error e => .error e
      | .ok p2 =>
        match wb with
        | none => .ok p2
        | some (b, baid) =>
          if 0 < betOf s b baid then
            if 0 < s.ch.agent_bet_pools.getD s.ch.winner_index 0 then
              match omul s.ch.total_bet_pool BW with
              | .error e => .error e
              | .ok pool =>
                oadd p2 (pool / 100 * betOf s b baid
                          / s.ch.agent_bet_pools.getD s.ch.winner_index 0
                          % U64)
            else .ok p2
          else .ok p2

/-- Instruction `claim`.  Account validation runs before the handler, in
struct field order: the `init` of the claimant's `ClaimRecord` PDA fails
when it already exists (`AlreadyClaimed`), then each presented optional
record must deserialize, i.e. exist (`NotFound`) — with no constraint
tying it to the claimant.  The handler then checks the challenge is
terminal and computes the payout. -/
def claim (s : EscrowState) (a : Nat) (er : Option Nat)
    (wb : Option (Nat × Nat)) (ub : Option Nat) :
    Except Err (EscrowState × Nat) :=
  if a ∈ s.claimRecords then .error .AlreadyClaimed
  else if er.any (fun e => decide (e ∉ s.enrollRecords)) then .error .NotFound
  else if wb.any (fun k => decide (k ∉ s.betRecords.map (fun e => e.1))) then
    .error .NotFound
  else if ub.any (fun u => decide (u ∉ s.userBetTotals.map (fun e => e.1))) then
    .error .NotFound
  else if ¬ (s.ch.finalized || s.ch.cancelled) then .error .NotDone
  else match claimPayout s a er wb ub with
    | .error e => .error e
    | .ok payout =>
      if payout = 0 then .error .NoPayout
      else if s.vault < payout then .error .InsufficientVault
      else .ok ({ s with
        vault := s.vault - payout,
        claimRecords := a :: s.claimRecords }, payout)

-- ───────────────────────── 8. withdraw ─────────────────────────

/-- Instruction `withdraw`; returns `(new state, refund to caller, peek fee)`.
The caller's `EnrollRecord` PDA is a required account (it must exist), so a
caller who never enrolled fails validation (`NotFound`). -/
def withdraw (s : EscrowState) (now : Int) (caller aid : Nat) :
    Except Err (EscrowState × Nat × Nat) :=
  if caller ∉ s.enrollRecords then .error .NotFound
  else if s.ch.finalized || s.ch.cancelled then .error .NotActive
  else if ¬ s.ch.start_time < now then .error .WrongPhase
  else if ¬ now ≤ s.ch.end_time then .error .WrongPhase
  else match s.ch.find_agent aid with
    | none => .error .AgentNotEnrolled
    | some i =>
      if s.ch.withdrawn.getD i false then .error .AlreadyWithdrawn
      else if ¬ caller = s.ch.agent_owners.getD i 0 then .error .NotAgentOwner
      else match checkedMul s.ch.entry_fee REFUND_PCT with
        | none => .error .Overflow
        | some r =>
          match checkedMul s.ch.entry_fee PEEK_FEE_PCT with
          | none => .error .Overflow
          | some pk =>
            match checkedAdd (r / 100) (pk / 100) with
            | none => .error .Overflow
            | some total =>
              if s.vault < total then .error .InsufficientVault
              else match checkedSub s.ch.total_entry_pool s.ch.entry_fee with
                | none => .error .Overflow
                | some pool =>
                  .ok ({ s with
                    ch := { s.ch with
                      withdrawn := s.ch.withdrawn.set i true,
                      total_entry_pool := pool },
                    vault := s.vault - total,
                    platformBal := s.platformBal + pk / 100 }, r / 100, pk / 100)

end Sol

namespace Near

-- Constants from the NEAR source (amounts in yoctoNEAR, `u128`).

def ENTRY_WINNER_PCT : Nat := 95
def ENTRY_CREATOR_PCT : Nat := 4
def ENTRY_PLATFORM_PCT : Nat := 1
def BET_WINNER_PCT : Nat := 95
def BET_CREATOR_PCT : Nat := 2
def BET_PLATFORM_PCT : Nat := 3
def MIN_FEE : Nat := 20000000000000000000000
def MIN_AGENTS : Nat := 3

/-- The NEAR `Challenge` struct (timestamps are `u64` nanoseconds; amounts
`u128`; agent ids are strings, accounts abstracted as `Nat`). -/
structure NearChallenge where
  creator : Nat
  enroll_end : Nat
  compete_end : Nat
  judge_end : Nat
  finalized : Bool
  cancelled : Bool
  agent_count : Nat
  entry_fee : Nat
  total_entry_pool : Nat
  total_bet_pool : Nat
  winner_agent_id : Option String
deriving DecidableEq

/-- One NEAR challenge's storage: the `Challenge` record plus the nested
maps that concern it.  Accumulating map entries (`bets`, `total_user_bets`,
`agent_bet_pool`) are represented by their credit events, a stored value
being the sum of the events with its key; `vote_count[aid]` is the number
of `aid` entries in `voteEvents`.  `agents` maps an agent id to its owner
(`AgentInfo.enrolled` is always `true` when present). -/
structure NearState where
  ch : NearChallenge
  agent_ids : List String
  agents : List (String × Nat)
  voteEvents : List String
  betEvents : List ((Nat × String) × Nat)
  tubEvents : List (Nat × Nat)
  abpEvents : List (String × Nat)
deriving DecidableEq

/-- `vote_count[challenge][aid]` (`unwrap_or(0)`). -/
def vcOf (ns : NearState) (aid : String) : Nat :=
  (ns.voteEvents.filter (fun x => decide (x = aid))).length

/-- NEAR `create` over the challenge registry.  The `u64` timestamp
arguments and the `U128` fee are already non-negative naturals. -/
def create (reg : List (String × NearChallenge)) (now : Nat) (caller : Nat)
    (id : String) (fee : Nat) (enroll_end compete_end judge_end : Nat) :
    Except Err (List (String × NearChallenge)) :=
  if (reg.find? (fun p => decide (p.1 = id))).isSome then .error .ChallengeExists
  else if fee < MIN_FEE then .error .FeeTooLow
  else if ¬ now < enroll_end then .error .BadTimestamps
  else if ¬ enroll_end < compete_end then .error .BadTimestamps
  else if ¬ compete_end < judge_end then .error .BadTimestamps
  else .ok ((id,
    { creator := caller, enroll_end := enroll_end, compete_end := compete_end,
      judge_end := judge_end, finalized := false, cancelled := false,
      agent_count := 0, entry_fee := fee, total_entry_pool := 0,
      total_bet_pool := 0, winner_agent_id := none }) :: reg)

/-- NEAR `bet` (the challenge is assumed found, i.e. `E5` is out of scope
of this single-challenge state).  The release profile sets
`overflow-checks = true`, so each `u128` addition panics on overflow,
modelled as `.error .Overflow`. -/
def bet (ns : NearState) (now : Nat) (caller : Nat) (aid : String)
    (deposit : Nat) : Except Err NearState :=
  if ns.ch.cancelled || ns.ch.finalized then .error .NotActive
  else if ns.ch.agent_count < MIN_AGENTS then .error .TooFewAgents
  else if ¬ (ns.ch.enroll_end < now ∧ now ≤ ns.ch.compete_end) then .error .WrongPhase
  else if ¬ ((ns.agents.find? (fun p => decide (p.1 = aid))).isSome) then
    .error .AgentNotEnrolled
  else if caller = ns.ch.creator then .error .CreatorBet
  else if deposit = 0 then .error .ZeroBet
  else if ¬ keySum ns.betEvents (caller, aid) + deposit < U128 then .error .Overflow
  else if ¬ keySum ns.tubEvents caller + deposit < U128 then .error .Overflow
  else if ¬ keySum ns.abpEvents aid + deposit < U128 then .error .Overflow
  else if ¬ ns.ch.total_bet_pool + deposit < U128 then .error .Overflow
  else .ok { ns with
    ch := { ns.ch with total_bet_pool := ns.ch.total_bet_pool + deposit },
    betEvents := ((caller, aid), deposit) :: ns.betEvents,
    tubEvents := (caller, deposit) :: ns.tubEvents,
    abpEvents := (aid, deposit) :: ns.abpEvents }

/-- The winner-selection loop of NEAR `finalize`: a fold over the agent id
vector with a strict `votes > max_votes` comparison starting from
`(None, 0)`. -/
def nearWinnerAux : List String → (String → Nat) → Option String × Nat →
    Option String × Nat
  | [], _, acc => acc
  | aid :: rest, vc, acc =>
    nearWinnerAux rest vc (if acc.2 < vc aid then (some aid, vc aid) else acc)

/-- NEAR `finalize`; returns the new state and the platform fee moved by the
final `Promise` transfer.  `winner.unwrap_or_default()` yields the empty
string when no agent ever got a strictly positive vote count.  The platform
fee sums the two percentage products before a single division; the `u128`
products/sum panic on overflow (modelled as `.error .Overflow`). -/
def finalize (ns : NearState) (now : Nat) : Except Err (NearState × Nat) :=
  if ns.ch.finalized || ns.ch.cancelled then .error .NotActive
  else if ¬ ns.ch.judge_end < now then .error .NotEnded
  else if ns.ch.agent_count < MIN_AGENTS then .error .TooFewAgents
  else
    let winner_id := (nearWinnerAux ns.agent_ids (vcOf ns) (none, 0)).1.getD ""
    if ¬ ns.ch.total_entry_pool * ENTRY_PLATFORM_PCT
          + ns.ch.total_bet_pool * BET_PLATFORM_PCT < U128 then .error .Overflow
    else .ok ({ ns with
      ch := { ns.ch with winner_agent_id := some winner_id, finalized := true } },
      (ns.ch.total_entry_pool * ENTRY_PLATFORM_PCT
        + ns.ch.total_bet_pool * BET_PLATFORM_PCT) / 100)

end Near

namespace Sol

-- ───────────────── State machine and reachability ─────────────────

/-- One successful instruction at block time `now` (claim reads no clock). -/
inductive StepAt : Int → EscrowState → EscrowState → Prop where
  | enroll (now : Int) (s s' : EscrowState) (a aid : Nat) :
      enroll s now a aid = .ok s' → StepAt now s s'
  | bet (now : Int) (s s' : EscrowState) (a aid amt : Nat) :
      bet s now a aid amt = .ok s' → StepAt now s s'
  | vote (now : Int) (s s' : EscrowState) (a aid bal : Nat) :
      vote s now a aid bal = .ok s' → StepAt now s s'
  | cancel (now : Int) (s s' : EscrowState) :
      cancel s now = .ok s' → StepAt now s s'
  | finalize (now : Int) (s s' : EscrowState) (fee : Nat) :
      finalize s now = .ok (s', fee) → StepAt now s s'
  | claim (now : Int) (s s' : EscrowState) (a amt : Nat)
      (er : Option Nat) (wb : Option (Nat × Nat)) (ub : Option Nat) :
      claim s a er wb ub = .ok (s', amt) → StepAt now s s'
  | withdraw (now : Int) (s s' : EscrowState) (a aid refund peek : Nat) :
      withdraw s now a aid = .ok (s', refund, peek) → StepAt now s s'

/-- A successful instruction at some block time. -/
def StepRel (s s' : EscrowState) : Prop := ∃ now, StepAt now s s'

/-- `ReachableAt t s`: state `s` arises from a `create` followed by
successful instructions, the last one at block time `t`; block timestamps
are non-decreasing across transactions. -/
inductive ReachableAt : Int → EscrowState → Prop where
  | created (now : Int) (creator platform entry_fee : Nat)
      (t1 t2 t3 cd rd : Int) (s : EscrowState) :
      create now creator platform entry_fee t1 t2 t3 cd rd = .ok s →
      ReachableAt now s
  | step (t now : Int) (s s' : EscrowState) :
      ReachableAt t s → t ≤ now → StepAt now s s' → ReachableAt now s'

/-- A reachable state of a challenge. -/
def Reachable (s : EscrowState) : Prop := ∃ t, ReachableAt t s

/-- A successful instruction whose `claim`s are honest: an honest claimant
presents only records of their own — their `EnrollRecord`, their
`BetRecord` on the winning agent, their `UserBetTotal` — or omits them.
All other instructions are unrestricted. -/
inductive HonestStepAt : Int → EscrowState → EscrowState → Prop where
  | enroll (now : Int) (s s' : EscrowState) (a aid : Nat) :
      enroll s now a aid = .ok s' → HonestStepAt now s s'
  | bet (now : Int) (s s' : EscrowState) (a aid amt : Nat) :
      bet s now a aid amt = .ok s' → HonestStepAt now s s'
  | vote (now : Int) (s s' : EscrowState) (a aid bal : Nat) :
      vote s now a aid bal = .ok s' → HonestStepAt now s s'
  | cancel (now : Int) (s s' : EscrowState) :
      cancel s now = .ok s' → HonestStepAt now s s'
  | finalize (now : Int) (s s' : EscrowState) (fee : Nat) :
      finalize s now = .ok (s', fee) → HonestStepAt now s s'
  | claim (now : Int) (s s' : EscrowState) (a amt : Nat)
      (er : Option Nat) (wb : Option (Nat × Nat)) (ub : Option Nat) :
      (er = none ∨ er = some a) →
      (wb = none ∨
        wb = some (a, s.ch.agent_ids.getD s.ch.winner_index 0)) →
      (ub = none ∨ ub = some a) →
      claim s a er wb ub = .ok (s', amt) → HonestStepAt now s s'
  | withdraw (now : Int) (s s' : EscrowState) (a aid refund peek : Nat) :
      withdraw s now a aid = .ok (s', refund, peek) → HonestStepAt now s s'

/-- Reachability along honest traces (same time-monotone structure as
`ReachableAt`, with every `claim` presenting only the claimant's own
records). -/
inductive HonestReachableAt : Int → EscrowState → Prop where
  | created (now : Int) (creator platform entry_fee : Nat)
      (t1 t2 t3 cd rd : Int) (s : EscrowState) :
      create now creator platform entry_fee t1 t2 t3 cd rd = .ok s →
      HonestReachableAt now s
  | step (t now : Int) (s s' : EscrowState) :
      HonestReachableAt t s → t ≤ now → HonestStepAt now s s' →
      HonestReachableAt now s'

-- ───────────────── Settlement value and outstanding obligations ─────────────────

/-- Payout owed on a cancelled challenge (the mathematical value of
`claimPayout` in the cancelled branch). -/
def settleCancelled (s : EscrowState) (a : Nat) : Nat :=
  (if a ∈ s.enrollRecords then s.ch.entry_fee else 0) + ubtOf s a

/-- Payout owed on a finalized challenge (the mathematical value of
`claimPayout` in the finalized branch). -/
def settleFinalized (s : EscrowState) (a : Nat) : Nat :=
  (if a = s.ch.agent_owners.getD s.ch.winner_index 0 then
      s.ch.total_entry_pool * EW / 100 else 0)
  + (if a = s.ch.creator then
      s.ch.total_entry_pool * EC / 100 + s.ch.total_bet_pool * BC / 100 else 0)
  + (if 0 < betOf s a (s.ch.agent_ids.getD s.ch.winner_index 0)
        ∧ 0 < s.ch.agent_bet_pools.getD s.ch.winner_index 0 then
      s.ch.total_bet_pool * BW / 100
        * betOf s a (s.ch.agent_ids.getD s.ch.winner_index 0)
        / s.ch.agent_bet_pools.getD s.ch.winner_index 0
     else 0)

/-- What a successful `claim` by `a` would pay in a terminal state. -/
def settle (s : EscrowState) (a : Nat) : Nat :=
  if s.ch.cancelled then settleCancelled s a else settleFinalized s a

/-- Every account that could possibly have a positive settlement value. -/
def relevantAccounts (s : EscrowState) : List Nat :=
  (s.enrollRecords ++ s.userBetTotals.map (fun e => e.1)
    ++ s.betRecords.map (fun e => e.1.1)
    ++ s.ch.creator :: s.ch.agent_owners).dedup

/-- Sum of all currently-payable-but-unclaimed obligations: zero while the
challenge is live, and in a terminal state the sum of the settlement values
of every account that has not claimed yet. -/
def obligations (s : EscrowState) : Nat :=
  if s.ch.finalized || s.ch.cancelled then
    (((relevantAccounts s).filter (fun a => decide (a ∉ s.claimRecords))).map
      (settle s)).sum
  else 0

end Sol

namespace Sol

-- ───────────── Concrete trace: enroll ×2, withdraw, cancel ─────────────

/-- State right after `create` (creator `1`, platform `2`, minimum fee,
phase boundaries 10/20/30). -/
def trState0 : EscrowState :=
  { ch :=
    { creator := 1, platform := 2, entry_fee := 10000000,
      start_time := 10, end_time := 20, judge_end := 30,
      competition_duration := 1, refund_duration := 1,
      total_entry_pool := 0, total_bet_pool := 0, agent_count := 0,
      finalized := false, cancelled := false, winner_index := 0,
      agent_ids := [], agent_owners := [], vote_counts := [],
      agent_bet_pools := [], withdrawn := [] },
    vault := 0, platformBal := 0,
    enrollRecords := [], betRecords := [], userBetTotals := [],
    voteRecords := [], claimRecords := [] }

/-- After account `3` enrolls agent `100`. -/
def trState1 : EscrowState :=
  { trState0 with
    ch := { trState0.ch with
      agent_ids := [100], agent_owners := [3], vote_counts := [0],
      agent_bet_pools := [0], withdrawn := [false],
      agent_count := 1, total_entry_pool := 10000000 },
    vault := 10000000, enrollRecords := [3] }

/-- After account `4` enrolls agent `101`. -/
def trState2 : EscrowState :=
  { trState1 with
    ch := { trState1.ch with
      agent_ids := [100, 101], agent_owners := [3, 4], vote_counts := [0, 0],
      agent_bet_pools := [0, 0], withdrawn := [false, false],
      agent_count := 2, total_entry_pool := 20000000 },
    vault := 20000000, enrollRecords := [4, 3] }

/-- After account `3` withdraws agent `100` mid-competition. -/
def trState3 : EscrowState :=
  { trState2 with
    ch := { trState2.ch with
      withdrawn := [true, false], total_entry_pool := 10000000 },
    vault := 10000000, platformBal := 200000 }

/-- After `cancel` (one active agent is below the quorum of 3). -/
def trState4 : EscrowState :=
  { trState3 with ch := { trState3.ch with cancelled := true } }

/-- After the withdrawn owner `3` claims a full-entry-fee refund anyway. -/
def trState5 : EscrowState :=
  { trState4 with vault := 0, claimRecords := [3] }

end Sol

namespace Sol

-- ───────────── Concrete finalized state with pro-rata bets ─────────────

/-- A finalized challenge: three agents, bettors `10` and `11` wagered 300
and 700 on the winning agent `100` (`total_bet_pool = 1000`). -/
def proState : EscrowState :=
  { ch :=
    { creator := 5, platform := 6, entry_fee := 10000000,
      start_time := 10, end_time := 20, judge_end := 30,
      competition_duration := 1, refund_duration := 1,
      total_entry_pool := 30000000, total_bet_pool := 1000, agent_count := 3,
      finalized := true, cancelled := false, winner_index := 0,
      agent_ids := [100, 101, 102], agent_owners := [1, 2, 3],
      vote_counts := [2, 1, 0], agent_bet_pools := [1000, 0, 0],
      withdrawn := [false, false, false] },
    vault := 30001000, platformBal := 0,
    enrollRecords := [1, 2, 3],
    betRecords := [((10, 100), 300), ((11, 100), 700)],
    userBetTotals := [(10, 300), (11, 700)],
    voteRecords := [], claimRecords := [] }

-- ───────────── Concrete mid-competition state for withdraw ─────────────

/-- A live challenge with one enrolled agent `7` owned by `9`
(`entry_fee = 100`), in the competition phase. -/
def wdState : EscrowState :=
  { ch :=
    { creator := 8, platform := 9, entry_fee := 100,
      start_time := 0, end_time := 10, judge_end := 20,
      competition_duration := 1, refund_duration := 1,
      total_entry_pool := 100, total_bet_pool := 0, agent_count := 1,
      finalized := false, cancelled := false, winner_index := 0,
      agent_ids := [7], agent_owners := [9], vote_counts := [0],
      agent_bet_pools := [0], withdrawn := [false] },
    vault := 100, platformBal := 0,
    enrollRecords := [9], betRecords := [], userBetTotals := [],
    voteRecords := [], claimRecords := [] }

/-- `wdState` after owner `9` withdraws agent `7`. -/
def wdStateA : EscrowState :=
  { wdState with
    ch := { wdState.ch with withdrawn := [true], total_entry_pool := 0 },
    vault := 0, platformBal := 2 }

-- ───────────── Concrete pre-finalize state ─────────────

/-- A live challenge past judging with three active agents,
`total_entry_pool = 300`, `total_bet_pool = 1000`. -/
def finState : EscrowState :=
  { ch :=
    { creator := 4, platform := 5, entry_fee := 100,
      start_time := 0, end_time := 10, judge_end := 20,
      competition_duration := 1, refund_duration := 1,
      total_entry_pool := 300, total_bet_pool := 1000, agent_count := 3,
      finalized := false, cancelled := false, winner_index := 0,
      agent_ids := [1, 2, 3], agent_owners := [6, 7, 8],
      vote_counts := [0, 0, 0], agent_bet_pools := [0, 0, 0],
      withdrawn := [false, false, false] },
    vault := 1300, platformBal := 0,
    enrollRecords := [6, 7, 8], betRecords := [], userBetTotals := [],
    voteRecords := [], claimRecords := [] }

/-- `finState` after `finalize` (platform fee `3 + 30 = 33`). -/
def finStateA : EscrowState :=
  { finState with
    ch := { finState.ch with winner_index := 0, finalized := true },
    vault := 1267, platformBal := 33 }

-- ───────────── Concrete two-agent state accepting a bet ─────────────

/-- A live challenge in the competition phase with only two enrolled
agents (below the NEAR quorum of 3). -/
def twoAgentState : EscrowState :=
  { ch :=
    { creator := 4, platform := 5, entry_fee := 100,
      start_time := 10, end_time := 20, judge_end := 30,
      competition_duration := 1, refund_duration := 1,
      total_entry_pool := 200, total_bet_pool := 0, agent_count := 2,
      finalized := false, cancelled := false, winner_index := 0,
      agent_ids := [100, 101], agent_owners := [6, 7],
      vote_counts := [0, 0], agent_bet_pools := [0, 0],
      withdrawn := [false, false] },
    vault := 200, platformBal := 0,
    enrollRecords := [6, 7], betRecords := [], userBetTotals := [],
    voteRecords := [], claimRecords := [] }

/-- `twoAgentState` after bettor `20` wagers 50 on agent `100`. -/
def twoAgentStateA : EscrowState :=
  { twoAgentState with
    ch := { twoAgentState.ch with
      agent_bet_pools := [50, 0], total_bet_pool := 50 },
    vault := 250,
    betRecords := [((20, 100), 50)], userBetTotals := [(20, 50)] }

end Sol

namespace Near

-- ───────────── Concrete NEAR states ─────────────

/-- A NEAR challenge past judging with three agents and no votes at all. -/
def nsZero : NearState :=
  { ch :=
    { creator := 1, enroll_end := 10, compete_end := 20, judge_end := 30,
      finalized := false, cancelled := false, agent_count := 3,
      entry_fee := MIN_FEE, total_entry_pool := 3 * MIN_FEE,
      total_bet_pool := 0, winner_agent_id := none },
    agent_ids := ["a", "b", "c"],
    agents := [("a", 2), ("b", 3), ("c", 4)],
    voteEvents := [], betEvents := [], tubEvents := [], abpEvents := [] }

/-- `nsZero` after `finalize`: the stored winner id is the empty default. -/
def nsZeroA : NearState :=
  { nsZero with
    ch := { nsZero.ch with winner_agent_id := some "", finalized := true } }

/-- A NEAR challenge whose pool residues make the single-division platform
fee differ from the separately-floored sum: `total_entry_pool ≡ 50` and
`total_bet_pool · 3 ≡ 50 (mod 100)`. -/
def nsFee : NearState :=
  { ch :=
    { creator := 1, enroll_end := 10, compete_end := 20, judge_end := 30,
      finalized := false, cancelled := false, agent_count := 3,
      entry_fee := MIN_FEE + 50, total_entry_pool := 3 * MIN_FEE + 150,
      total_bet_pool := 150, winner_agent_id := none },
    agent_ids := ["x", "y", "z"],
    agents := [("x", 2), ("y", 3), ("z", 4)],
    voteEvents := [], betEvents := [], tubEvents := [], abpEvents := [] }

/-- `nsFee` after `finalize`. -/
def nsFeeA : NearState :=
  { nsFee with
    ch := { nsFee.ch with winner_agent_id := some "", finalized := true } }

/-- A live NEAR challenge in the competition phase with two agents. -/
def nsFew : NearState :=
  { ch :=
    { creator := 1, enroll_end := 10, compete_end := 20, judge_end := 30,
      finalized := false, cancelled := false, agent_count := 2,
      entry_fee := MIN_FEE, total_entry_pool := 2 * MIN_FEE,
      total_bet_pool := 0, winner_agent_id := none },
    agent_ids := ["a", "b"],
    agents := [("a", 2), ("b", 3)],
    voteEvents := [], betEvents := [], tubEvents := [], abpEvents := [] }

end Near

namespace Sol

/-- `trState2` after cancellation at time 16 (no withdrawals). -/
def trCancel2 : EscrowState :=
  match cancel trState2 16 with
  | .ok s => s
  | .error _ => trState2

/-- `trState2` after a third agent (owner 5, agent id 102) enrolls. -/
def trState2c : EscrowState :=
  match enroll trState2 5 5 102 with
  | .ok s => s
  | .error _ => trState2

/-- `trState2c` finalized at time 31. -/
def trFinS : EscrowState :=
  match finalize trState2c 31 with
  | .ok (s, _) => s
  | .error _ => trState2c

/-- `trCancel2` after the never-enrolled account `9` claims, presenting
enrolled account `3`'s `EnrollRecord` (the `Claim` accounts struct does not
tie the optional records to the claimant). -/
def trDrain : EscrowState :=
  match claim trCancel2 9 (some 3) none none with
  | .ok (s, _) => s
  | .error _ => trCancel2

end Sol

namespace Near

end Near

-- ───────────────────── List and arithmetic helpers ─────────────────────

theorem getD_set_self {l : List Nat} {i : Nat} {v : Nat} (h : i < l.length) :
    (l.set i v).getD i 0 = v := by
  simp [List.getD_eq_getElem?_getD, List.getElem?_set_self (by simpa using h)]

theorem getD_set_ne {l : List Nat} {i j : Nat} {v : Nat} (h : i ≠ j) :
    (l.set i v).getD j 0 = l.getD j 0 := by
  simp [List.getD_eq_getElem?_getD, List.getElem?_set_ne h]

theorem sum_set {l : List Nat} {i : Nat} (v : Nat) (h : i < l.length) :
    (l.set i v).sum + l.getD i 0 = l.sum + v := by
  induction l generalizing i with
  | nil => simp at h
  | cons x xs ih =>
    cases i with
    | zero => simp [List.getD_cons_zero]; omega
    | succ n =>
      have hn : n < xs.length := by simpa using h
      have := ih hn
      simp only [List.set, List.sum_cons, List.getD_cons_succ]
      omega

theorem div_add_div_le (a b n : Nat) : a / n + b / n ≤ (a + b) / n := by
  rcases Nat.eq_zero_or_pos n with h | h
  · simp [h]
  · rw [Nat.le_div_iff_mul_le h, Nat.add_mul]
    exact Nat.add_le_add (Nat.div_mul_le_self a n) (Nat.div_mul_le_self b n)

theorem findAgentIdx_some {l : List Nat} {t i : Nat}
    (h : Sol.findAgentIdx l t = some i) : i < l.length ∧ l.getD i 0 = t := by
  induction l generalizing i with
  | nil => simp [Sol.findAgentIdx] at h
  | cons x xs ih =>
    by_cases hx : x = t
    · simp [Sol.findAgentIdx, hx] at h
      subst h
      simp [hx]
    · simp [Sol.findAgentIdx, hx] at h
      obtain ⟨j, hj, rfl⟩ := h
      obtain ⟨h1, h2⟩ := ih hj
      exact ⟨by simpa using h1, by simpa using h2⟩

theorem keySum_cons {κ : Type} [DecidableEq κ] (k' k : κ) (v : Nat)
    (E : List (κ × Nat)) :
    keySum ((k', v) :: E) k = (if k' = k then v else 0) + keySum E k := by
  by_cases h : k' = k <;> simp [keySum, List.filter_cons, h]

theorem sum_map_ite_eq {κ : Type} [DecidableEq κ] (L : List κ) (x : κ) (c : Nat)
    (hL : L.Nodup) :
    (L.map (fun a => if x = a then c else 0)).sum = if x ∈ L then c else 0 := by
  induction L with
  | nil => simp
  | cons h t ih =>
    rw [List.nodup_cons] at hL
    by_cases hx : x = h
    · subst hx
      simp [hL.1, ih hL.2]
    · simp only [List.map_cons, List.sum_cons, if_neg hx, List.mem_cons]
      rw [ih hL.2]
      simp [Ne.symm hx, hx]

/-- Summing each key's accumulated amount over a duplicate-free list of
keys covering every entry recovers the total of all entries. -/
theorem sum_map_keySum {κ : Type} [DecidableEq κ] (L : List κ)
    (E : List (κ × Nat)) (hL : L.Nodup) (hE : ∀ e ∈ E, e.1 ∈ L) :
    (L.map (keySum E)).sum = (E.map (fun e => e.2)).sum := by
  induction E with
  | nil =>
    have h0 : List.map (keySum ([] : List (κ × Nat))) L
        = List.map (fun _ => (0 : Nat)) L :=
      List.map_congr_left fun a _ => rfl
    rw [h0]
    simp
  | cons e E' ih =>
    have h1 : ∀ x ∈ E', x.1 ∈ L := fun x hx => hE x (List.mem_cons_of_mem _ hx)
    have h2 : (L.map (keySum (e :: E'))).sum
        = (L.map (fun a => if e.1 = a then e.2 else 0)).sum
          + (L.map (keySum E')).sum := by
      rw [← List.sum_map_add]
      refine congrArg List.sum (List.map_congr_left fun a _ => ?_)
      rw [show e = (e.1, e.2) from rfl, keySum_cons]
    rw [h2, sum_map_ite_eq L e.1 e.2 hL, if_pos (hE e (List.mem_cons_self e E')),
      ih h1]
    simp

theorem sum_map_ite_mem (L E : List Nat) (c : Nat) :
    (L.map (fun a => if a ∈ E then c else 0)).sum
      = c * (L.filter (fun a => decide (a ∈ E))).length := by
  induction L with
  | nil => simp
  | cons h t ih =>
    by_cases hx : h ∈ E
    · simp [List.filter_cons, hx, ih, Nat.mul_add, Nat.mul_one]
      exact Nat.add_comm c _
    · simp [List.filter_cons, hx, ih]

theorem length_filter_mem {L E : List Nat} (hL : L.Nodup) (hE : E.Nodup)
    (hsub : ∀ x ∈ E, x ∈ L) :
    (L.filter (fun a => decide (a ∈ E))).length = E.length := by
  refine List.Perm.length_eq ?_
  rw [List.perm_ext_iff_of_nodup (hL.filter _) hE]
  intro a
  simp only [List.mem_filter, decide_eq_true_eq]
  exact ⟨fun h => h.2, fun h => ⟨hsub a h, h⟩⟩

/-- Removing a single still-unclaimed account from the obligation filter
removes exactly its settlement value from the sum. -/
theorem sum_filter_erase {L C : List Nat} (f : Nat → Nat) {a : Nat}
    (hL : L.Nodup) (ha : a ∈ L) (hc : a ∉ C) :
    ((L.filter (fun x => decide (x ∉ a :: C))).map f).sum + f a
      = ((L.filter (fun x => decide (x ∉ C))).map f).sum := by
  induction L with
  | nil => simp at ha
  | cons h t ih =>
    rw [List.nodup_cons] at hL
    rcases List.mem_cons.mp ha with rfl | hat
    · have hfilter : t.filter (fun x => decide (x ∉ a :: C))
          = t.filter (fun x => decide (x ∉ C)) := by
        refine List.filter_congr fun x hx => ?_
        have hxa : x ≠ a := fun hxa => hL.1 (hxa ▸ hx)
        simp [List.mem_cons, hxa]
      simp only [List.filter_cons]
      have h1 : (decide (a ∉ a :: C)) = false := by simp
      have h2 : (decide (a ∉ C)) = true := by simpa using hc
      rw [h1, h2, hfilter]
      simp [Nat.add_comm]
    · by_cases hmem : h ∉ C
      · have hha : h ≠ a := fun hha => hL.1 (hha ▸ hat)
        have h1 : (decide (h ∉ a :: C)) = true := by
          simp [List.mem_cons, hha, hmem]
        have h2 : (decide (h ∉ C)) = true := by simpa using hmem
        simp only [List.filter_cons, h1, h2, if_pos, List.map_cons,
          List.sum_cons]
        rw [Nat.add_assoc, ih hL.2 hat]
      · rw [Classical.not_not] at hmem
        have h1 : (decide (h ∉ a :: C)) = false := by
          simp [List.mem_cons, hmem]
        have h2 : (decide (h ∉ C)) = false := by simpa using hmem
        simp only [List.filter_cons, h1, h2]
        exact ih hL.2 hat

theorem le_sum_of_mem {L : List Nat} {p : Nat → Bool} {f : Nat → Nat} {a : Nat}
    (ha : a ∈ L) (hp : p a = true) : f a ≤ ((L.filter p).map f).sum := by
  exact List.single_le_sum (fun x _ => Nat.zero_le x) _
    (List.mem_map_of_mem f (List.mem_filter.mpr ⟨ha, hp⟩))

theorem sum_map_div_le (L : List Nat) (f : Nat → Nat) (p : Nat) :
    (L.map (fun a => f a / p)).sum ≤ (L.map f).sum / p := by
  induction L with
  | nil => simp
  | cons h t ih =>
    simp only [List.map_cons, List.sum_cons]
    calc f h / p + (t.map (fun a => f a / p)).sum
        ≤ f h / p + (t.map f).sum / p := Nat.add_le_add_left ih _
      _ ≤ (f h + (t.map f).sum) / p := div_add_div_le _ _ _

theorem exists_active_of_pos {ws : List Bool}
    (h : 0 < (ws.filter (fun w => !w)).length) :
    ∃ k, k < ws.length ∧ ws.getD k false = false := by
  induction ws with
  | nil => simp at h
  | cons w t ih =>
    cases w with
    | false => exact ⟨0, by simp, by simp⟩
    | true =>
      simp only [List.filter_cons, Bool.not_true, if_neg] at h
      obtain ⟨k, hk, hkw⟩ := ih (by simpa using h)
      exact ⟨k + 1, by simpa using hk, by simpa using hkw⟩

-- ───────────────────── Checked-arithmetic inversions ─────────────────────

theorem checkedAdd_some {a b v : Nat} (h : checkedAdd a b = some v) :
    a + b < U64 ∧ v = a + b := by
  unfold checkedAdd at h
  split at h
  · exact ⟨by assumption, (Option.some.inj h).symm⟩
  · cases h

theorem checkedMul_some {a b v : Nat} (h : checkedMul a b = some v) :
    a * b < U64 ∧ v = a * b := by
  unfold checkedMul at h
  split at h
  · exact ⟨by assumption, (Option.some.inj h).symm⟩
  · cases h

theorem checkedSub_some {a b v : Nat} (h : checkedSub a b = some v) :
    b ≤ a ∧ v = a - b := by
  unfold checkedSub at h
  split at h
  · exact ⟨by assumption, (Option.some.inj h).symm⟩
  · cases h

namespace Sol

theorem oadd_ok {a b v : Nat} (h : oadd a b = .ok v) :
    a + b < U64 ∧ v = a + b := by
  unfold oadd at h
  cases hc : checkedAdd a b with
  | none => rw [hc] at h; cases h
  | some w =>
    rw [hc] at h
    obtain ⟨h1, h2⟩ := checkedAdd_some hc
    exact ⟨h1, (Except.ok.inj h).symm ▸ h2⟩

theorem omul_ok {a b v : Nat} (h : omul a b = .ok v) :
    a * b < U64 ∧ v = a * b := by
  unfold omul at h
  cases hc : checkedMul a b with
  | none => rw [hc] at h; cases h
  | some w =>
    rw [hc] at h
    obtain ⟨h1, h2⟩ := checkedMul_some hc
    exact ⟨h1, (Except.ok.inj h).symm ▸ h2⟩

-- ───────────────────── Instruction inversions ─────────────────────

theorem enroll_ok {s s' : EscrowState} {now : Int} {a aid : Nat}
    (h : enroll s now a aid = .ok s') :
    a ∉ s.enrollRecords ∧ now ≤ s.ch.start_time ∧ s.ch.cancelled = false ∧
    s.ch.agent_count < MAX_AGENTS ∧ aid ∉ s.ch.agent_ids ∧
    s.ch.total_entry_pool + s.ch.entry_fee < U64 ∧
    s' = { s with
      ch := { s.ch with
        agent_ids := s.ch.agent_ids ++ [aid],
        agent_owners := s.ch.agent_owners ++ [a],
        vote_counts := s.ch.vote_counts ++ [0],
        agent_bet_pools := s.ch.agent_bet_pools ++ [0],
        withdrawn := s.ch.withdrawn ++ [false],
        agent_count := s.ch.agent_count + 1,
        total_entry_pool := s.ch.total_entry_pool + s.ch.entry_fee },
      vault := s.vault + s.ch.entry_fee,
      enrollRecords := a :: s.enrollRecords } := by
  unfold enroll at h
  split at h
  · cases h
  split at h
  · cases h
  split at h
  · cases h
  split at h
  · cases h
  split at h
  · cases h
  split at h
  · cases h
  next pool hpool =>
    obtain ⟨hlt, rfl⟩ := checkedAdd_some hpool
    refine ⟨by assumption, by omega, by simpa using ‹¬s.ch.cancelled = true›,
      by omega, by assumption, hlt, ?_⟩
    exact (Except.ok.inj h).symm

theorem bet_ok {s s' : EscrowState} {now : Int} {bettor aid amount : Nat}
    (h : bet s now bettor aid amount = .ok s') :
    s.ch.cancelled = false ∧ s.ch.finalized = false ∧
    s.ch.start_time < now ∧ now ≤ s.ch.end_time ∧ 0 < amount ∧
    betOf s bettor aid + amount < U64 ∧
    ubtOf s bettor + amount < U64 ∧
    s.ch.total_bet_pool + amount < U64 ∧
    ∃ i, s.ch.find_agent aid = some i ∧
      s.ch.withdrawn.getD i false = false ∧
      s.ch.agent_bet_pools.getD i 0 + amount < U64 ∧
      s' = { s with
        ch := { s.ch with
          agent_bet_pools :=
            s.ch.agent_bet_pools.set i (s.ch.agent_bet_pools.getD i 0 + amount),
          total_bet_pool := s.ch.total_bet_pool + amount },
        vault := s.vault + amount,
        betRecords := ((bettor, aid), amount) :: s.betRecords,
        userBetTotals := (bettor, amount) :: s.userBetTotals } := by
  unfold bet at h
  split at h
  · cases h
  next hflags =>
  split at h
  · cases h
  next hphase =>
  split at h
  · cases h
  next hamt =>
  split at h
  · cases h
  next i hfind =>
  split at h
  · cases h
  next hwd =>
  split at h
  · cases h
  next b1 hb1 =>
  split at h
  · cases h
  next b2 hb2 =>
  split at h
  · cases h
  next b3 hb3 =>
  split at h
  · cases h
  next b4 hb4 =>
  obtain ⟨hflag1, hflag2⟩ : s.ch.cancelled = false ∧ s.ch.finalized = false := by
    constructor <;> revert hflags <;> cases s.ch.cancelled <;>
      cases s.ch.finalized <;> simp
  obtain ⟨hph1, hph2⟩ := not_not.mp hphase
  obtain ⟨hlt1, rfl⟩ := checkedAdd_some hb1
  obtain ⟨hlt2, rfl⟩ := checkedAdd_some hb2
  obtain ⟨hlt3, rfl⟩ := checkedAdd_some hb3
  obtain ⟨hlt4, rfl⟩ := checkedAdd_some hb4
  refine ⟨hflag1, hflag2, hph1, hph2, by omega, hlt1, hlt2, hlt4,
    i, hfind, by simpa using hwd, hlt3, (Except.ok.inj h).symm⟩

theorem vote_ok {s s' : EscrowState} {now : Int} {voter aid bal : Nat}
    (h : vote s now voter aid bal = .ok s') :
    voter ∉ s.voteRecords ∧ s.ch.cancelled = false ∧ s.ch.finalized = false ∧
    MIN_AGENTS ≤ s.ch.active_agent_count ∧
    s.ch.end_time < now ∧ now ≤ s.ch.judge_end ∧
    ∃ i, s.ch.find_agent aid = some i ∧
      s.ch.withdrawn.getD i false = false ∧
      s.ch.vote_counts.getD i 0 + 1 < U64 ∧
      s' = { s with
        ch := { s.ch with
          vote_counts := s.ch.vote_counts.set i (s.ch.vote_counts.getD i 0 + 1) },
        voteRecords := voter :: s.voteRecords } := by
  unfold vote at h
  split at h
  · cases h
  next hvr =>
  split at h
  · cases h
  next hflags =>
  split at h
  · cases h
  next hquorum =>
  split at h
  · cases h
  next hphase =>
  split at h
  · cases h
  next i hfind =>
  split at h
  · cases h
  next hwd =>
  split at h
  · cases h
  next hbal =>
  split at h
  · cases h
  next v hv =>
  obtain ⟨hflag1, hflag2⟩ : s.ch.cancelled = false ∧ s.ch.finalized = false := by
    constructor <;> revert hflags <;> cases s.ch.cancelled <;>
      cases s.ch.finalized <;> simp
  obtain ⟨hph1, hph2⟩ := not_not.mp hphase
  obtain ⟨hlt, rfl⟩ := checkedAdd_some hv
  exact ⟨hvr, hflag1, hflag2, by omega, hph1, hph2, i, hfind,
    by simpa using hwd, hlt, (Except.ok.inj h).symm⟩

theorem cancel_ok {s s' : EscrowState} {now : Int}
    (h : cancel s now = .ok s') :
    s.ch.finalized = false ∧ s.ch.cancelled = false ∧
    s.ch.start_time < now ∧ s.ch.active_agent_count < MIN_AGENTS ∧
    s' = { s with ch := { s.ch with cancelled := true } } := by
  unfold cancel at h
  split at h
  · cases h
  next hflags =>
  split at h
  · cases h
  next hnow =>
  split at h
  · cases h
  next hq =>
  obtain ⟨hflag1, hflag2⟩ : s.ch.finalized = false ∧ s.ch.cancelled = false := by
    constructor <;> revert hflags <;> cases s.ch.cancelled <;>
      cases s.ch.finalized <;> simp
  exact ⟨hflag1, hflag2, by omega, by omega, (Except.ok.inj h).symm⟩

theorem finalize_ok {s s' : EscrowState} {now : Int} {fee : Nat}
    (h : finalize s now = .ok (s', fee)) :
    s.ch.finalized = false ∧ s.ch.cancelled = false ∧
    s.ch.judge_end < now ∧ MIN_AGENTS ≤ s.ch.active_agent_count ∧
    s.ch.total_entry_pool * EP < U64 ∧ s.ch.total_bet_pool * BP < U64 ∧
    fee = s.ch.total_entry_pool * EP / 100 + s.ch.total_bet_pool * BP / 100 ∧
    (0 < fee → fee ≤ s.vault) ∧
    s' = { s with
      ch := { s.ch with
        winner_index := (winnerAux s.ch.vote_counts s.ch.withdrawn 0 (0, 0, false)).1,
        finalized := true },
      vault := s.vault - fee,
      platformBal := s.platformBal + fee } := by
  unfold finalize at h
  split at h
  · cases h
  next hflags =>
  split at h
  · cases h
  next hnow =>
  split at h
  · cases h
  next hq =>
  split at h
  · cases h
  next ep hep =>
  split at h
  · cases h
  next bp hbp =>
  split at h
  · cases h
  next f hf =>
  split at h
  · cases h
  next hvault =>
  obtain ⟨hflag1, hflag2⟩ : s.ch.finalized = false ∧ s.ch.cancelled = false := by
    constructor <;> revert hflags <;> cases s.ch.cancelled <;>
      cases s.ch.finalized <;> simp
  obtain ⟨hlt1, rfl⟩ := checkedMul_some hep
  obtain ⟨hlt2, rfl⟩ := checkedMul_some hbp
  obtain ⟨hlt3, rfl⟩ := checkedAdd_some hf
  obtain ⟨h1, h2⟩ := Prod.mk.injEq .. ▸ (Except.ok.inj h)
  subst h2
  exact ⟨hflag1, hflag2, by omega, by omega, hlt1, hlt2, rfl,
    fun hpos => by omega, h1.symm⟩

theorem claim_ok {s s' : EscrowState} {a amt : Nat} {er : Option Nat}
    {wb : Option (Nat × Nat)} {ub : Option Nat}
    (h : claim s a er wb ub = .ok (s', amt)) :
    a ∉ s.claimRecords ∧
    (∀ e, er = some e → e ∈ s.enrollRecords) ∧
    (∀ k, wb = some k → k ∈ s.betRecords.map (fun e => e.1)) ∧
    (∀ u, ub = some u → u ∈ s.userBetTotals.map (fun e => e.1)) ∧
    (s.ch.finalized = true ∨ s.ch.cancelled = true) ∧
    claimPayout s a er wb ub = .ok amt ∧ 0 < amt ∧ amt ≤ s.vault ∧
    s' = { s with
      vault := s.vault - amt,
      claimRecords := a :: s.claimRecords } := by
  unfold claim at h
  split at h
  · cases h
  next hcr =>
  split at h
  · cases h
  next her =>
  split at h
  · cases h
  next hwb =>
  split at h
  · cases h
  next hub =>
  split at h
  · cases h
  next hdone =>
  split at h
  · cases h
  next payout hpay =>
  split at h
  · cases h
  next hzero =>
  split at h
  · cases h
  next hvault =>
  obtain ⟨h1, h2⟩ := Prod.mk.injEq .. ▸ (Except.ok.inj h)
  subst h2
  have hterm : s.ch.finalized = true ∨ s.ch.cancelled = true := by
    revert hdone
    cases s.ch.finalized <;> cases s.ch.cancelled <;> simp
  refine ⟨hcr, ?_, ?_, ?_, hterm, hpay, by omega, by omega, h1.symm⟩
  · intro e he
    subst he
    simp only [Option.any_some, decide_eq_true_eq] at her
    by_contra hx
    exact her (by simpa using hx)
  · intro k hk
    subst hk
    simp only [Option.any_some, decide_eq_true_eq] at hwb
    by_contra hx
    exact hwb (by simpa using hx)
  · intro u hu
    subst hu
    simp only [Option.any_some, decide_eq_true_eq] at hub
    by_contra hx
    exact hub (by simpa using hx)

theorem withdraw_ok {s s' : EscrowState} {now : Int} {caller aid refund peek : Nat}
    (h : withdraw s now caller aid = .ok (s', refund, peek)) :
    caller ∈ s.enrollRecords ∧
    s.ch.finalized = false ∧ s.ch.cancelled = false ∧
    s.ch.start_time < now ∧ now ≤ s.ch.end_time ∧
    s.ch.entry_fee * REFUND_PCT < U64 ∧ s.ch.entry_fee * PEEK_FEE_PCT < U64 ∧
    refund = s.ch.entry_fee * REFUND_PCT / 100 ∧
    peek = s.ch.entry_fee * PEEK_FEE_PCT / 100 ∧
    refund + peek ≤ s.vault ∧ s.ch.entry_fee ≤ s.ch.total_entry_pool ∧
    ∃ i, s.ch.find_agent aid = some i ∧
      s.ch.withdrawn.getD i false = false ∧
      caller = s.ch.agent_owners.getD i 0 ∧
      s' = { s with
        ch := { s.ch with
          withdrawn := s.ch.withdrawn.set i true,
          total_entry_pool := s.ch.total_entry_pool - s.ch.entry_fee },
        vault := s.vault - (refund + peek),
        platformBal := s.platformBal + peek } := by
  unfold withdraw at h
  split at h
  · cases h
  next her =>
  split at h
  · cases h
  next hflags =>
  split at h
  · cases h
  next hnow1 =>
  split at h
  · cases h
  next hnow2 =>
  split at h
  · cases h
  next i hfind =>
  split at h
  · cases h
  next hwd =>
  split at h
  · cases h
  next howner =>
  split at h
  · cases h
  next r hr =>
  split at h
  · cases h
  next pk hpk =>
  split at h
  · cases h
  next total htotal =>
  split at h
  · cases h
  next hvault =>
  split at h
  · cases h
  next pool hpool =>
  obtain ⟨hflag1, hflag2⟩ : s.ch.finalized = false ∧ s.ch.cancelled = false := by
    constructor <;> revert hflags <;> cases s.ch.cancelled <;>
      cases s.ch.finalized <;> simp
  obtain ⟨hm1, rfl⟩ := checkedMul_some hr
  obtain ⟨hm2, rfl⟩ := checkedMul_some hpk
  obtain ⟨hm3, rfl⟩ := checkedAdd_some htotal
  obtain ⟨hm4, rfl⟩ := checkedSub_some hpool
  obtain ⟨h1, h2⟩ := Prod.mk.injEq .. ▸ (Except.ok.inj h)
  obtain ⟨h2a, h2b⟩ := Prod.mk.injEq .. ▸ h2
  subst h2a
  subst h2b
  exact ⟨not_not.mp her, hflag1, hflag2, by omega, by omega, hm1, hm2,
    rfl, rfl, by omega, hm4, i, hfind, by simpa using hwd,
    not_not.mp howner, h1.symm⟩

end Sol

namespace Near

theorem near_finalize_ok {ns ns' : NearState} {now fee : Nat}
    (h : Near.finalize ns now = .ok (ns', fee)) :
    ns.ch.finalized = false ∧ ns.ch.cancelled = false ∧
    ns.ch.judge_end < now ∧ MIN_AGENTS ≤ ns.ch.agent_count ∧
    fee = (ns.ch.total_entry_pool * ENTRY_PLATFORM_PCT
          + ns.ch.total_bet_pool * BET_PLATFORM_PCT) / 100 ∧
    ns' = { ns with ch := { ns.ch with
      winner_agent_id :=
        some ((nearWinnerAux ns.agent_ids (vcOf ns) (none, 0)).1.getD ""),
      finalized := true } } := by
  simp only [Near.finalize] at h
  split at h
  · cases h
  next hflags =>
  split at h
  · cases h
  next hnow =>
  split at h
  · cases h
  next hq =>
  split at h
  · cases h
  next hovf =>
  obtain ⟨hflag1, hflag2⟩ : ns.ch.finalized = false ∧ ns.ch.cancelled = false := by
    constructor <;> revert hflags <;> cases ns.ch.finalized <;>
      cases ns.ch.cancelled <;> simp
  obtain ⟨h1, h2⟩ := Prod.mk.injEq .. ▸ (Except.ok.inj h)
  subst h2
  exact ⟨hflag1, hflag2, by omega, by omega, rfl, h1.symm⟩

end Near

-- ═══════════════════════ Claim C6 ═══════════════════════

/-- Claim C6 (confirmed): every successful `withdraw` during Competition by
the agent's owner pays the caller exactly `floor(entry_fee·98/100)`, pays
the platform exactly `floor(entry_fee·2/100)`, debits the vault by their sum
in one step, sets the agent's withdrawn flag, and decreases
`total_entry_pool` by the full `entry_fee`. -/
theorem C6_withdraw :
    ∀ (s s' : Sol.EscrowState) (now : Int) (caller aid refund peek : Nat),
    Sol.withdraw s now caller aid = .ok (s', refund, peek) →
    refund = s.ch.entry_fee * 98 / 100 ∧
    peek = s.ch.entry_fee * 2 / 100 ∧
    refund + peek ≤ s.vault ∧
    s'.vault = s.vault - (refund + peek) ∧
    s'.platformBal = s.platformBal + peek ∧
    s.ch.entry_fee ≤ s.ch.total_entry_pool ∧
    s'.ch.total_entry_pool + s.ch.entry_fee = s.ch.total_entry_pool ∧
    s.ch.start_time < now ∧ now ≤ s.ch.end_time ∧
    caller ∈ s.enrollRecords ∧
    ∃ i, s.ch.find_agent aid = some i ∧
      s.ch.withdrawn.getD i false = false ∧
      caller = s.ch.agent_owners.getD i 0 ∧
      s'.ch.withdrawn = s.ch.withdrawn.set i true := by
  intro s s' now caller aid refund peek h
  obtain ⟨hmem, hf, hc, hn1, hn2, hm1, hm2, hr, hp, hv, hfee, i, hfind, hwd,
    howner, rfl⟩ := Sol.withdraw_ok h
  subst hr
  subst hp
  refine ⟨rfl, rfl, hv, rfl, rfl, hfee, by simp; omega, hn1, hn2, hmem,
    i, hfind, hwd, howner, rfl⟩

/-- Witness for C6 at the concrete competition-phase state `wdState`. -/
theorem C6_witness :
    (98 : Nat) = Sol.wdState.ch.entry_fee * 98 / 100 ∧
    (2 : Nat) = Sol.wdState.ch.entry_fee * 2 / 100 ∧
    98 + 2 ≤ Sol.wdState.vault ∧
    Sol.wdStateA.vault = Sol.wdState.vault - (98 + 2) ∧
    Sol.wdStateA.platformBal = Sol.wdState.platformBal + 2 ∧
    Sol.wdState.ch.entry_fee ≤ Sol.wdState.ch.total_entry_pool ∧
    Sol.wdStateA.ch.total_entry_pool + Sol.wdState.ch.entry_fee
      = Sol.wdState.ch.total_entry_pool ∧
    Sol.wdState.ch.start_time < 5 ∧ (5 : Int) ≤ Sol.wdState.ch.end_time ∧
    9 ∈ Sol.wdState.enrollRecords ∧
    ∃ i, Sol.wdState.ch.find_agent 7 = some i ∧
      Sol.wdState.ch.withdrawn.getD i false = false ∧
      9 = Sol.wdState.ch.agent_owners.getD i 0 ∧
      Sol.wdStateA.ch.withdrawn = Sol.wdState.ch.withdrawn.set i true :=
  C6_withdraw Sol.wdState Sol.wdStateA 5 9 7 98 2 (by decide)

-- ═══════════════════════ Claim C4 ═══════════════════════

/-- Claim C4 counterexample: the NEAR variant sums the two percentage
products before a single floor division, so at `total_entry_pool ≡ 50` and
`total_bet_pool·3 ≡ 50 (mod 100)` the transferred fee exceeds the claimed
separately-floored sum by one. -/
theorem C4_fee_cex :
    Near.finalize Near.nsFee 100 = .ok (Near.nsFeeA, 600000000000000000006) ∧
    600000000000000000006 ≠
      Near.nsFee.ch.total_entry_pool * Near.ENTRY_PLATFORM_PCT / 100
        + Near.nsFee.ch.total_bet_pool * Near.BET_PLATFORM_PCT / 100 := by
  exact ⟨by decide, by decide⟩

/-- Claim C4 amended: on finalize the Solana variant transfers
`floor(e·EP/100) + floor(b·BP/100)` (the two shares floor-divided separately
and then summed, EP = 1 and BP = 3) from the vault to the platform; the NEAR
variant instead transfers `floor((e·1 + b·3)/100)`, dividing once after
summing the products. -/
theorem C4_fee_amended :
    (∀ (s s' : Sol.EscrowState) (now : Int) (fee : Nat),
      Sol.finalize s now = .ok (s', fee) →
      fee = s.ch.total_entry_pool * Sol.EP / 100
          + s.ch.total_bet_pool * Sol.BP / 100 ∧
      s'.platformBal = s.platformBal + fee ∧
      s'.vault + fee = s.vault) ∧
    (∀ (ns ns' : Near.NearState) (now fee : Nat),
      Near.finalize ns now = .ok (ns', fee) →
      fee = (ns.ch.total_entry_pool * Near.ENTRY_PLATFORM_PCT
            + ns.ch.total_bet_pool * Near.BET_PLATFORM_PCT) / 100) := by
  constructor
  · intro s s' now fee h
    obtain ⟨hf, hc, hn, hq, hm1, hm2, hfee, hv, rfl⟩ := Sol.finalize_ok h
    refine ⟨hfee, rfl, ?_⟩
    rcases Nat.eq_zero_or_pos fee with h0 | h0
    · simp [h0]
    · have := hv h0
      simp
      omega
  · intro ns ns' now fee h
    exact (Near.near_finalize_ok h).2.2.2.2.1

/-- Witness for C4 at the concrete pre-finalize state `finState`. -/
theorem C4_witness :
    (33 : Nat) = Sol.finState.ch.total_entry_pool * Sol.EP / 100
        + Sol.finState.ch.total_bet_pool * Sol.BP / 100 ∧
    Sol.finStateA.platformBal = Sol.finState.platformBal + 33 ∧
    Sol.finStateA.vault + 33 = Sol.finState.vault :=
  C4_fee_amended.1 Sol.finState Sol.finStateA 25 33 (by decide)

-- ═══════════════════════ Claim C10 ═══════════════════════

/-- Claim C10 (confirmed): the NEAR `bet` requires the challenge's agent
count to reach the quorum (`MIN_AGENTS = 3`) — on every non-terminal
challenge with fewer than 3 enrolled agents every bet fails with
`TooFewAgents`, whatever the phase, agent and amount — while the Solana
`bet` imposes no quorum precondition: it accepts a bet on a live two-agent
challenge. -/
theorem C10_near_bet_quorum :
    (∀ (ns : Near.NearState) (now caller : Nat) (aid : String) (deposit : Nat),
      ns.ch.cancelled = false → ns.ch.finalized = false →
      ns.ch.agent_count < Near.MIN_AGENTS →
      Near.bet ns now caller aid deposit = .error .TooFewAgents) ∧
    Sol.bet Sol.twoAgentState 15 20 100 50 = .ok Sol.twoAgentStateA ∧
    Sol.twoAgentState.ch.agent_count < Near.MIN_AGENTS := by
  refine ⟨?_, by decide, by decide⟩
  intro ns now caller aid deposit h1 h2 h3
  simp [Near.bet, h1, h2, h3]

/-- Witness for C10 at the concrete two-agent NEAR state `nsFew`. -/
theorem C10_witness :
    Near.bet Near.nsFew 15 5 "a" 50 = .error .TooFewAgents :=
  C10_near_bet_quorum.1 Near.nsFew 15 5 "a" 50 rfl rfl (by decide)

-- ═══════════════════════ Claim C9 ═══════════════════════

theorem except_error_iff {α : Type} (x : Except Err α) :
    (∃ e, x = .error e) ↔ ¬ ∃ v, x = .ok v := by
  cases x <;> simp

theorem near_find_id_isSome {reg : List (String × Near.NearChallenge)}
    {id : String} :
    (reg.find? (fun p => decide (p.1 = id))).isSome = true ↔
      ∃ c, (id, c) ∈ reg := by
  rw [List.find?_isSome]
  constructor
  · rintro ⟨x, hx, hpx⟩
    rw [decide_eq_true_eq] at hpx
    exact ⟨x.2, by rw [← hpx]; exact hx⟩
  · rintro ⟨c, hc⟩
    exact ⟨(id, c), hc, by simp⟩

theorem near_create_ok_iff (reg : List (String × Near.NearChallenge))
    (now caller : Nat) (id : String) (fee t1 t2 t3 : Nat) :
    (∃ out, Near.create reg now caller id fee t1 t2 t3 = .ok out) ↔
      ((reg.find? (fun p => decide (p.1 = id))).isSome = false ∧
        Near.MIN_FEE ≤ fee ∧ now < t1 ∧ t1 < t2 ∧ t2 < t3) := by
  unfold Near.create
  by_cases h1 : (reg.find? (fun p => decide (p.1 = id))).isSome = true <;>
  by_cases h2 : fee < Near.MIN_FEE <;>
  by_cases h3 : now < t1 <;>
  by_cases h4 : t1 < t2 <;>
  by_cases h5 : t2 < t3 <;>
  simp [h1, h2, h3, h4, h5] <;> omega

/-- Claim C9 counterexample: with a fresh id, the minimum fee, `t1 = now`,
`t2 > t1`, `t3 > t2`, the claim says Create succeeds, but the code requires
`t1 > now` strictly and rejects `t1 = now` with a timestamp error. -/
theorem C9_create_cex :
    Near.create [] 5 1 "c1" Near.MIN_FEE 5 6 7 = .error .BadTimestamps := by
  decide

/-- Claim C9 amended: Create fails exactly when the id is already used, the
fee is below the configured minimum, or `t1 ≤ now ∨ t2 ≤ t1 ∨ t3 ≤ t2`
(note `t1 ≤ now`, not `t1 < now`: `t1 = now` is rejected); with a fresh id,
`fee ≥ minimum` and `now < t1 < t2 < t3` it succeeds and persists a zeroed
challenge.  The Solana variant behaves the same on `t1 ≤ now` and
additionally requires positive competition and refund durations. -/
theorem C9_create_amended :
    (∀ (reg : List (String × Near.NearChallenge)) (now caller : Nat)
        (id : String) (fee t1 t2 t3 : Nat),
      (∃ e, Near.create reg now caller id fee t1 t2 t3 = .error e) ↔
        ((∃ c, (id, c) ∈ reg) ∨ fee < Near.MIN_FEE ∨ t1 ≤ now ∨ t2 ≤ t1 ∨
          t3 ≤ t2)) ∧
    (∀ (reg : List (String × Near.NearChallenge)) (now caller : Nat)
        (id : String) (fee t1 t2 t3 : Nat),
      (∀ c, (id, c) ∉ reg) → Near.MIN_FEE ≤ fee → now < t1 → t1 < t2 →
      t2 < t3 →
      Near.create reg now caller id fee t1 t2 t3 = .ok ((id,
        { creator := caller, enroll_end := t1, compete_end := t2,
          judge_end := t3, finalized := false, cancelled := false,
          agent_count := 0, entry_fee := fee, total_entry_pool := 0,
          total_bet_pool := 0, winner_agent_id := none }) :: reg)) ∧
    (∀ (now : Int) (cr pl fee : Nat) (t1 t2 t3 cd rd : Int),
      Sol.MIN_FEE ≤ fee → t1 ≤ now →
      Sol.create now cr pl fee t1 t2 t3 cd rd = .error .BadTimestamps) ∧
    (∀ (now : Int) (cr pl fee : Nat) (t1 t2 t3 cd rd : Int),
      Sol.MIN_FEE ≤ fee → now < t1 → t1 < t2 → t2 < t3 → 0 < cd → 0 < rd →
      ∃ s, Sol.create now cr pl fee t1 t2 t3 cd rd = .ok s ∧
        s.ch.total_entry_pool = 0 ∧ s.ch.total_bet_pool = 0 ∧
        s.ch.agent_count = 0 ∧ s.ch.finalized = false ∧
        s.ch.cancelled = false) := by
  refine ⟨?_, ?_, ?_, ?_⟩
  · intro reg now caller id fee t1 t2 t3
    rw [except_error_iff, near_create_ok_iff]
    rw [← @near_find_id_isSome reg id]
    constructor
    · intro h
      by_cases h1 : (reg.find? (fun p => decide (p.1 = id))).isSome = true
      · exact Or.inl h1
      · right
        have h1' : (reg.find? (fun p => decide (p.1 = id))).isSome = false := by
          revert h1
          cases (reg.find? (fun p => decide (p.1 = id))).isSome <;> simp
        by_contra hno
        push_neg at hno
        exact h ⟨h1', by omega, by omega, by omega, by omega⟩
    · rintro (h1 | h2) hgood
      · rw [hgood.1] at h1
        cases h1
      · omega
  · intro reg now caller id fee t1 t2 t3 hfresh hfee h1 h2 h3
    have hfind : (reg.find? (fun p => decide (p.1 = id))).isSome = false := by
      by_contra hx
      have : (reg.find? (fun p => decide (p.1 = id))).isSome = true := by
        revert hx
        cases (reg.find? (fun p => decide (p.1 = id))).isSome <;> simp
      obtain ⟨c, hc⟩ := near_find_id_isSome.mp this
      exact hfresh c hc
    simp [Near.create, hfind, h1, h2, h3]
    omega
  · intro now cr pl fee t1 t2 t3 cd rd hfee hle
    have h1 : ¬ fee < Sol.MIN_FEE := by omega
    have h2 : ¬ now < t1 := by omega
    simp [Sol.create, h1, h2]
  · intro now cr pl fee t1 t2 t3 cd rd hfee h1 h2 h3 h4 h5
    have hf : ¬ fee < Sol.MIN_FEE := by omega
    have hok : Sol.create now cr pl fee t1 t2 t3 cd rd = .ok
      { ch :=
        { creator := cr, platform := pl, entry_fee := fee, start_time := t1,
          end_time := t2, judge_end := t3, competition_duration := cd,
          refund_duration := rd, total_entry_pool := 0, total_bet_pool := 0,
          agent_count := 0, finalized := false, cancelled := false,
          winner_index := 0, agent_ids := [], agent_owners := [],
          vote_counts := [], agent_bet_pools := [], withdrawn := [] },
        vault := 0, platformBal := 0, enrollRecords := [], betRecords := [],
        userBetTotals := [], voteRecords := [], claimRecords := [] } := by
      simp [Sol.create, hf, h1, h2, h3, h4, h5]
    exact ⟨_, hok, rfl, rfl, rfl, rfl, rfl⟩

/-- Witness for C9: a successful NEAR create on a fresh registry. -/
theorem C9_witness :
    Near.create [] 5 1 "c1" Near.MIN_FEE 6 7 8 = .ok [("c1",
      { creator := 1, enroll_end := 6, compete_end := 7, judge_end := 8,
        finalized := false, cancelled := false, agent_count := 0,
        entry_fee := Near.MIN_FEE, total_entry_pool := 0,
        total_bet_pool := 0, winner_agent_id := none })] :=
  C9_create_amended.2.1 [] 5 1 "c1" Near.MIN_FEE 6 7 8
    (fun c hc => by cases hc) (by omega) (by omega) (by omega) (by omega)

-- ═══════════════════════ Claim C2 ═══════════════════════

/-- Claim C2 (confirmed): a successful `withdraw` leaves the caller's
`EnrollRecord` (and `UserBetTotal`) in place, and the cancellation branch of
`claim` pays the full `entry_fee` plus the account's bet total to any
enrolled account, never consulting the withdrawn flag; concretely, in the
trace where account `3` enrolled, withdrew for the reduced refund and the
challenge was then cancelled, account `3` claims the full fee again. -/
theorem C2_withdraw_then_cancel_refund :
    (∀ (s s' : Sol.EscrowState) (now : Int) (caller aid refund peek : Nat),
      Sol.withdraw s now caller aid = .ok (s', refund, peek) →
      s'.enrollRecords = s.enrollRecords ∧
      s'.userBetTotals = s.userBetTotals ∧
      s'.ch.entry_fee = s.ch.entry_fee) ∧
    (∀ (s : Sol.EscrowState) (a : Nat),
      s.ch.cancelled = true → a ∈ s.enrollRecords →
      s.ch.entry_fee + Sol.ubtOf s a < U64 →
      Sol.claimPayout s a (some a) none (some a)
        = .ok (s.ch.entry_fee + Sol.ubtOf s a)) ∧
    (Sol.trState3.ch.withdrawn = [true, false] ∧
     Sol.trState4.ch.cancelled = true ∧
     Sol.trState4.ch.entry_fee = 10000000 ∧
     Sol.claim Sol.trState4 3 (some 3) none none
       = .ok (Sol.trState5, 10000000)) := by
  refine ⟨?_, ?_, by decide, by decide, by decide, by decide⟩
  · intro s s' now caller aid refund peek h
    obtain ⟨-, -, -, -, -, -, -, -, -, -, -, i, -, -, -, rfl⟩ :=
      Sol.withdraw_ok h
    exact ⟨rfl, rfl, rfl⟩
  · intro s a hc hmem hlt
    have h1 : s.ch.entry_fee < U64 := by omega
    simp [Sol.claimPayout, hc, Sol.oadd, checkedAdd, h1, hlt]

/-- Witness for C2 on the cancelled trace state. -/
theorem C2_witness :
    Sol.claimPayout Sol.trState4 3 (some 3) none (some 3)
      = .ok (Sol.trState4.ch.entry_fee + Sol.ubtOf Sol.trState4 3) :=
  C2_withdraw_then_cancel_refund.2.1 Sol.trState4 3 (by decide) (by decide)
    (by decide)

-- ═══════════════════════ Claim C5 ═══════════════════════

/-- Claim C5 (confirmed): on a finalized challenge a claimant holding
`b > 0` on the winning agent with winner bet pool `p > 0` receives as
bettor component `floor(floor(total_bet_pool·95/100)·b/p)`; the
multiply-before-divide happens in a double-width (`u128`) intermediate and
cannot overflow; with bets 300 and 700 on the winner and
`total_bet_pool = 1000` the payouts are 285 and 665, summing to 950. -/
theorem C5_prorata :
    (∀ (s : Sol.EscrowState) (a : Nat),
      s.ch.finalized = true → s.ch.cancelled = false →
      a ≠ s.ch.agent_owners.getD s.ch.winner_index 0 →
      a ≠ s.ch.creator →
      0 < Sol.betOf s a (s.ch.agent_ids.getD s.ch.winner_index 0) →
      Sol.betOf s a (s.ch.agent_ids.getD s.ch.winner_index 0)
        ≤ s.ch.agent_bet_pools.getD s.ch.winner_index 0 →
      s.ch.total_bet_pool * Sol.BW < U64 →
      Sol.claimPayout s a none
          (some (a, s.ch.agent_ids.getD s.ch.winner_index 0)) none
        = .ok (s.ch.total_bet_pool * Sol.BW / 100
          * Sol.betOf s a (s.ch.agent_ids.getD s.ch.winner_index 0)
          / s.ch.agent_bet_pools.getD s.ch.winner_index 0)) ∧
    (∀ pool b : Nat, pool < U64 → b < U64 → pool / 100 * b < U64 * U64) ∧
    (Sol.proState.ch.finalized = true ∧
     Sol.proState.ch.total_bet_pool = 1000 ∧
     Sol.claimPayout Sol.proState 10 none
         (some (10, Sol.proState.ch.agent_ids.getD
           Sol.proState.ch.winner_index 0)) none = .ok 285 ∧
     Sol.claimPayout Sol.proState 11 none
         (some (11, Sol.proState.ch.agent_ids.getD
           Sol.proState.ch.winner_index 0)) none = .ok 665 ∧
     285 + 665 = Sol.proState.ch.total_bet_pool * Sol.BW / 100) := by
  refine ⟨?_, ?_, by decide, by decide, by decide, by decide, by decide⟩
  · intro s a hfin hc hwo hcr hb hbp hovf
    have hp : 0 < s.ch.agent_bet_pools.getD s.ch.winner_index 0 :=
      lt_of_lt_of_le hb hbp
    have hshare_le : s.ch.total_bet_pool * Sol.BW / 100
        * Sol.betOf s a (s.ch.agent_ids.getD s.ch.winner_index 0)
        / s.ch.agent_bet_pools.getD s.ch.winner_index 0
        ≤ s.ch.total_bet_pool * Sol.BW / 100 := by
      calc s.ch.total_bet_pool * Sol.BW / 100
            * Sol.betOf s a (s.ch.agent_ids.getD s.ch.winner_index 0)
            / s.ch.agent_bet_pools.getD s.ch.winner_index 0
          ≤ s.ch.total_bet_pool * Sol.BW / 100
            * s.ch.agent_bet_pools.getD s.ch.winner_index 0
            / s.ch.agent_bet_pools.getD s.ch.winner_index 0 :=
            Nat.div_le_div_right (Nat.mul_le_mul_left _ hbp)
        _ = s.ch.total_bet_pool * Sol.BW / 100 := Nat.mul_div_cancel _ hp
    have hshare_lt : s.ch.total_bet_pool * Sol.BW / 100
        * Sol.betOf s a (s.ch.agent_ids.getD s.ch.winner_index 0)
        / s.ch.agent_bet_pools.getD s.ch.winner_index 0 < U64 :=
      lt_of_le_of_lt (le_trans hshare_le (Nat.div_le_self _ _)) hovf
    have h0 : ∀ v : Nat, v < U64 → 0 + v < U64 := by omega
    simp only [List.getD_eq_getElem?_getD] at hwo hb hp hshare_lt
    simp [Sol.claimPayout, hc, hwo, hcr, hb, hp, Sol.omul, checkedMul, hovf,
      Sol.oadd, checkedAdd, Nat.mod_eq_of_lt hshare_lt, hshare_lt]
  · intro pool b h1 h2
    have h3 : pool / 100 ≤ pool := Nat.div_le_self _ _
    exact lt_of_le_of_lt (Nat.mul_le_mul_right _ h3)
      (mul_lt_mul'' h1 h2 (Nat.zero_le _) (Nat.zero_le _))

/-- Witness for C5 at the concrete pro-rata state. -/
theorem C5_witness :
    Sol.claimPayout Sol.proState 10 none
        (some (10, Sol.proState.ch.agent_ids.getD
          Sol.proState.ch.winner_index 0)) none
      = .ok (Sol.proState.ch.total_bet_pool * Sol.BW / 100
        * Sol.betOf Sol.proState 10
            (Sol.proState.ch.agent_ids.getD Sol.proState.ch.winner_index 0)
        / Sol.proState.ch.agent_bet_pools.getD Sol.proState.ch.winner_index 0) :=
  C5_prorata.1 Sol.proState 10 rfl rfl (by decide) (by decide) (by decide)
    (by decide) (by decide)

-- ───────────────────── Winner-selection lemmas ─────────────────────

namespace Sol

/-- Behaviour of the Solana winner loop once an active agent has been
found: the running maximum only grows, bounds every active suffix entry,
and the final choice is either the incoming accumulator or the first
suffix entry that strictly beats everything before it. -/
theorem winnerAux_true (vs : List Nat) :
    ∀ (ws : List Bool) (i wi0 mv0 : Nat), ws.length = vs.length →
    (winnerAux vs ws i (wi0, mv0, true)).2.2 = true ∧
    mv0 ≤ (winnerAux vs ws i (wi0, mv0, true)).2.1 ∧
    (∀ k, k < vs.length → ws.getD k false = false →
      vs.getD k 0 ≤ (winnerAux vs ws i (wi0, mv0, true)).2.1) ∧
    (((winnerAux vs ws i (wi0, mv0, true)).1 = wi0 ∧
      (winnerAux vs ws i (wi0, mv0, true)).2.1 = mv0) ∨
     ∃ k, k < vs.length ∧ ws.getD k false = false ∧
       (winnerAux vs ws i (wi0, mv0, true)).1 = i + k ∧
       (winnerAux vs ws i (wi0, mv0, true)).2.1 = vs.getD k 0 ∧
       mv0 < vs.getD k 0 ∧
       ∀ j, j < k → ws.getD j false = false → vs.getD j 0 < vs.getD k 0) := by
  induction vs with
  | nil =>
    intro ws i wi0 mv0 hlen
    simp [winnerAux]
  | cons v vs' ih =>
    intro ws i wi0 mv0 hlen
    cases ws with
    | nil => simp at hlen
    | cons w ws' =>
      have hlen' : ws'.length = vs'.length := by simpa using hlen
      cases w with
      | true =>
        have hstep : winnerAux (v :: vs') (true :: ws') i (wi0, mv0, true)
            = winnerAux vs' ws' (i + 1) (wi0, mv0, true) := by
          simp [winnerAux]
        rw [hstep]
        obtain ⟨hA, hB, hC, hD⟩ := ih ws' (i + 1) wi0 mv0 hlen'
        refine ⟨hA, hB, ?_, ?_⟩
        · intro k hk hwk
          cases k with
          | zero => simp at hwk
          | succ k' =>
            simp only [List.getD_cons_succ] at hwk ⊢
            exact hC k' (by simpa using hk) hwk
        · rcases hD with hD | ⟨k, hk, hwk, h1, h2, h3, h4⟩
          · exact Or.inl hD
          · refine Or.inr ⟨k + 1, by simpa using hk, by simpa using hwk,
              by rw [h1]; omega, by simpa using h2, by simpa using h3, ?_⟩
            intro j hj hwj
            cases j with
            | zero => simp at hwj
            | succ j' =>
              simp only [List.getD_cons_succ] at hwj ⊢
              exact h4 j' (by omega) hwj
      | false =>
        by_cases hv : mv0 < v
        · have hstep : winnerAux (v :: vs') (false :: ws') i (wi0, mv0, true)
              = winnerAux vs' ws' (i + 1) (i, v, true) := by
            simp [winnerAux, hv]
          rw [hstep]
          obtain ⟨hA, hB, hC, hD⟩ := ih ws' (i + 1) i v hlen'
          refine ⟨hA, by omega, ?_, ?_⟩
          · intro k hk hwk
            cases k with
            | zero => simpa using hB
            | succ k' =>
              simp only [List.getD_cons_succ] at hwk ⊢
              exact hC k' (by simpa using hk) hwk
          · rcases hD with ⟨h1, h2⟩ | ⟨k, hk, hwk, h1, h2, h3, h4⟩
            · refine Or.inr ⟨0, by simp, by simp, by rw [h1]; omega,
                by simpa using h2, by simpa using hv, ?_⟩
              intro j hj hwj
              omega
            · refine Or.inr ⟨k + 1, by simpa using hk, by simpa using hwk,
                by rw [h1]; omega, by simpa using h2, ?_, ?_⟩
              · simp only [List.getD_cons_succ]
                omega
              · intro j hj hwj
                cases j with
                | zero =>
                  simp only [List.getD_cons_zero, List.getD_cons_succ]
                  omega
                | succ j' =>
                  simp only [List.getD_cons_succ] at hwj ⊢
                  exact h4 j' (by omega) hwj
        · have hstep : winnerAux (v :: vs') (false :: ws') i (wi0, mv0, true)
              = winnerAux vs' ws' (i + 1) (wi0, mv0, true) := by
            simp [winnerAux, hv]
          rw [hstep]
          obtain ⟨hA, hB, hC, hD⟩ := ih ws' (i + 1) wi0 mv0 hlen'
          refine ⟨hA, hB, ?_, ?_⟩
          · intro k hk hwk
            cases k with
            | zero =>
              simp only [List.getD_cons_zero]
              omega
            | succ k' =>
              simp only [List.getD_cons_succ] at hwk ⊢
              exact hC k' (by simpa using hk) hwk
          · rcases hD with hD | ⟨k, hk, hwk, h1, h2, h3, h4⟩
            · exact Or.inl hD
            · refine Or.inr ⟨k + 1, by simpa using hk, by simpa using hwk,
                by rw [h1]; omega, by simpa using h2, ?_, ?_⟩
              · simp only [List.getD_cons_succ]
                omega
              · intro j hj hwj
                cases j with
                | zero =>
                  simp only [List.getD_cons_zero, List.getD_cons_succ]
                  omega
                | succ j' =>
                  simp only [List.getD_cons_succ] at hwj ⊢
                  exact h4 j' (by omega) hwj

/-- The Solana winner loop started on a not-yet-found accumulator selects
the first non-withdrawn agent attaining the maximum vote count among the
non-withdrawn agents, provided one exists. -/
theorem winnerAux_found (vs : List Nat) :
    ∀ (ws : List Bool) (i wi0 mv0 : Nat), ws.length = vs.length →
    (∃ k, k < vs.length ∧ ws.getD k false = false) →
    ∃ k, k < vs.length ∧ ws.getD k false = false ∧
      (winnerAux vs ws i (wi0, mv0, false)).1 = i + k ∧
      (winnerAux vs ws i (wi0, mv0, false)).2.1 = vs.getD k 0 ∧
      (∀ j, j < vs.length → ws.getD j false = false →
        vs.getD j 0 ≤ vs.getD k 0) ∧
      (∀ j, j < k → ws.getD j false = false → vs.getD j 0 < vs.getD k 0) ∧
      (winnerAux vs ws i (wi0, mv0, false)).2.2 = true := by
  induction vs with
  | nil =>
    intro ws i wi0 mv0 hlen hex
    obtain ⟨k, hk, -⟩ := hex
    simp at hk
  | cons v vs' ih =>
    intro ws i wi0 mv0 hlen hex
    cases ws with
    | nil => simp at hlen
    | cons w ws' =>
      have hlen' : ws'.length = vs'.length := by simpa using hlen
      cases w with
      | true =>
        have hstep : winnerAux (v :: vs') (true :: ws') i (wi0, mv0, false)
            = winnerAux vs' ws' (i + 1) (wi0, mv0, false) := by
          simp [winnerAux]
        rw [hstep]
        have hex' : ∃ k, k < vs'.length ∧ ws'.getD k false = false := by
          obtain ⟨k, hk, hwk⟩ := hex
          cases k with
          | zero => simp at hwk
          | succ k' =>
            exact ⟨k', by simpa using hk, by simpa using hwk⟩
        obtain ⟨k, hk, hwk, h1, h2, h3, h4, h5⟩ :=
          ih ws' (i + 1) wi0 mv0 hlen' hex'
        refine ⟨k + 1, by simpa using hk, by simpa using hwk,
          by rw [h1]; omega, by simpa using h2, ?_, ?_, h5⟩
        · intro j hj hwj
          cases j with
          | zero => simp at hwj
          | succ j' =>
            simp only [List.getD_cons_succ] at hwj ⊢
            exact h3 j' (by simpa using hj) hwj
        · intro j hj hwj
          cases j with
          | zero => simp at hwj
          | succ j' =>
            simp only [List.getD_cons_succ] at hwj ⊢
            exact h4 j' (by omega) hwj
      | false =>
        have hstep : winnerAux (v :: vs') (false :: ws') i (wi0, mv0, false)
            = winnerAux vs' ws' (i + 1) (i, v, true) := by
          simp [winnerAux]
        rw [hstep]
        obtain ⟨hA, hB, hC, hD⟩ := winnerAux_true vs' ws' (i + 1) i v hlen'
        rcases hD with ⟨h1, h2⟩ | ⟨k, hk, hwk, h1, h2, h3, h4⟩
        · refine ⟨0, by simp, by simp, by rw [h1]; omega,
            by simpa using h2, ?_, by omega, hA⟩
          intro j hj hwj
          cases j with
          | zero => simp
          | succ j' =>
            simp only [List.getD_cons_succ, List.getD_cons_zero] at hwj ⊢
            rw [← h2]
            exact hC j' (by simpa using hj) hwj
        · refine ⟨k + 1, by simpa using hk, by simpa using hwk,
            by rw [h1]; omega, by simpa using h2, ?_, ?_, hA⟩
          · intro j hj hwj
            cases j with
            | zero =>
              simp only [List.getD_cons_zero, List.getD_cons_succ]
              omega
            | succ j' =>
              simp only [List.getD_cons_succ] at hwj ⊢
              rw [← h2]
              exact hC j' (by simpa using hj) hwj
          · intro j hj hwj
            cases j with
            | zero =>
              simp only [List.getD_cons_zero, List.getD_cons_succ]
              omega
            | succ j' =>
              simp only [List.getD_cons_succ] at hwj ⊢
              exact h4 j' (by omega) hwj

end Sol

namespace Near

/-- Behaviour of the NEAR winner fold: the running maximum only grows and
bounds every entry; the result is the incoming accumulator or the first
agent whose count strictly beats everything before it. -/
theorem nearWinnerAux_spec (ids : List String) :
    ∀ (vc : String → Nat) (o0 : Option String) (mv0 : Nat),
    mv0 ≤ (nearWinnerAux ids vc (o0, mv0)).2 ∧
    (∀ aid ∈ ids, vc aid ≤ (nearWinnerAux ids vc (o0, mv0)).2) ∧
    (nearWinnerAux ids vc (o0, mv0) = (o0, mv0) ∨
     ∃ k, k < ids.length ∧
       (nearWinnerAux ids vc (o0, mv0)).1 = some (ids.getD k "") ∧
       (nearWinnerAux ids vc (o0, mv0)).2 = vc (ids.getD k "") ∧
       mv0 < vc (ids.getD k "") ∧
       ∀ j, j < k → vc (ids.getD j "") < vc (ids.getD k "")) := by
  induction ids with
  | nil =>
    intro vc o0 mv0
    simp [nearWinnerAux]
  | cons aid rest ih =>
    intro vc o0 mv0
    by_cases hv : mv0 < vc aid
    · have hstep : nearWinnerAux (aid :: rest) vc (o0, mv0)
          = nearWinnerAux rest vc (some aid, vc aid) := by
        simp [nearWinnerAux, hv]
      rw [hstep]
      obtain ⟨hB, hC, hD⟩ := ih vc (some aid) (vc aid)
      refine ⟨by omega, ?_, ?_⟩
      · intro x hx
        rcases List.mem_cons.mp hx with rfl | hx'
        · exact hB
        · exact hC x hx'
      · rcases hD with hD | ⟨k, hk, h1, h2, h3, h4⟩
        · refine Or.inr ⟨0, by simp, ?_, ?_, by simpa using hv, by omega⟩
          · rw [hD]
            simp
          · rw [hD]
            simp
        · refine Or.inr ⟨k + 1, by simpa using hk, by simpa using h1,
            by simpa using h2, ?_, ?_⟩
          · simp only [List.getD_cons_succ]
            omega
          · intro j hj
            cases j with
            | zero =>
              simp only [List.getD_cons_zero, List.getD_cons_succ]
              omega
            | succ j' =>
              simp only [List.getD_cons_succ]
              exact h4 j' (by omega)
    · have hstep : nearWinnerAux (aid :: rest) vc (o0, mv0)
          = nearWinnerAux rest vc (o0, mv0) := by
        simp [nearWinnerAux, hv]
      rw [hstep]
      obtain ⟨hB, hC, hD⟩ := ih vc o0 mv0
      refine ⟨hB, ?_, ?_⟩
      · intro x hx
        rcases List.mem_cons.mp hx with rfl | hx'
        · omega
        · exact hC x hx'
      · rcases hD with hD | ⟨k, hk, h1, h2, h3, h4⟩
        · exact Or.inl hD
        · refine Or.inr ⟨k + 1, by simpa using hk, by simpa using h1,
            by simpa using h2, ?_, ?_⟩
          · simp only [List.getD_cons_succ]
            omega
          · intro j hj
            cases j with
            | zero =>
              simp only [List.getD_cons_zero, List.getD_cons_succ]
              omega
            | succ j' =>
              simp only [List.getD_cons_succ]
              exact h4 j' (by omega)

end Near

-- ───────────────────── More list helpers ─────────────────────

theorem active_append_false (ws : List Bool) :
    ((ws ++ [false]).filter (fun w => !w)).length
      = (ws.filter (fun w => !w)).length + 1 := by
  simp [List.filter_append]

theorem active_set_true {ws : List Bool} {i : Nat} (h : i < ws.length)
    (hw : ws.getD i false = false) :
    ((ws.set i true).filter (fun w => !w)).length + 1
      = (ws.filter (fun w => !w)).length := by
  induction ws generalizing i with
  | nil => simp at h
  | cons w t ih =>
    cases i with
    | zero =>
      simp only [List.getD_cons_zero] at hw
      subst hw
      simp [List.filter_cons]
    | succ n =>
      have hn : n < t.length := by simpa using h
      have := ih hn (by simpa using hw)
      cases w <;> simp only [List.set, List.filter_cons] <;> simp <;> omega

theorem active_all_false {ws : List Bool} (h : ∀ w ∈ ws, w = false) :
    (ws.filter (fun w => !w)).length = ws.length := by
  rw [List.filter_eq_self.mpr (fun w hw => by simp [h w hw])]

theorem nodup_getD_ne {l : List Nat} (hl : l.Nodup) {i j : Nat}
    (hi : i < l.length) (hj : j < l.length) (hij : i ≠ j) :
    l.getD i 0 ≠ l.getD j 0 := by
  rw [List.getD_eq_getElem l 0 hi, List.getD_eq_getElem l 0 hj]
  intro heq
  exact hij ((List.Nodup.getElem_inj_iff hl).mp heq)

theorem getD_mem_of_lt {l : List Nat} {i : Nat} (h : i < l.length) :
    l.getD i 0 ∈ l := by
  rw [List.getD_eq_getElem l 0 h]
  exact List.getElem_mem h

theorem keySum_eq_zero_of_not_mem {κ : Type} [DecidableEq κ]
    {E : List (κ × Nat)} {k : κ} (h : k ∉ E.map (fun e => e.1)) :
    keySum E k = 0 := by
  unfold keySum
  rw [List.filter_eq_nil_iff.mpr, List.map_nil, List.sum_nil]
  intro e he hk
  rw [decide_eq_true_eq] at hk
  exact h (hk ▸ List.mem_map_of_mem (fun e => e.1) he)

theorem mem_of_keySum_pos {κ : Type} [DecidableEq κ]
    {E : List (κ × Nat)} {k : κ} (h : 0 < keySum E k) :
    k ∈ E.map (fun e => e.1) := by
  by_contra hk
  rw [keySum_eq_zero_of_not_mem hk] at h
  omega

theorem sum_map_filter_and_le {α : Type} (E : List α) (q r : α → Bool)
    (f : α → Nat) :
    ((E.filter (fun x => r x && q x)).map f).sum
      ≤ ((E.filter q).map f).sum := by
  rw [← List.filter_filter]
  exact List.Sublist.sum_le_sum
    (List.Sublist.map f (List.filter_sublist _)) (fun a _ => Nat.zero_le _)

/-- Re-keying the bet ledger restricted to one agent id: the amount of the
`(account, agent)` record equals the amount keyed by `account` in the
agent's slice of the ledger. -/
theorem keySum_pair_slice (E : List ((Nat × Nat) × Nat)) (a wid : Nat) :
    keySum E (a, wid)
      = keySum ((E.filter (fun e => decide (e.1.2 = wid))).map
          (fun e => (e.1.1, e.2))) a := by
  induction E with
  | nil => rfl
  | cons e E' ih =>
    rw [show e = (e.1, e.2) from rfl, keySum_cons, List.filter_cons]
    by_cases h1 : e.1.2 = wid
    · have hd : decide (((e.1, e.2) : (Nat × Nat) × Nat).1.2 = wid) = true := by
        simpa using h1
      rw [if_pos hd, List.map_cons, keySum_cons, ih]
      by_cases h2 : e.1.1 = a <;>
        simp [Prod.ext_iff, h1, h2]
    · have hd : ¬ decide (((e.1, e.2) : (Nat × Nat) × Nat).1.2 = wid) = true := by
        simpa using h1
      rw [if_neg hd, ih]
      have hne : ¬ (((e.1, e.2) : (Nat × Nat) × Nat).1 = (a, wid)) := by
        rw [Prod.ext_iff]
        intro hx
        exact h1 hx.2
      rw [if_neg hne, Nat.zero_add]

-- ───────────────────── The reachable-state invariant ─────────────────────

namespace Sol

theorem create_ok {now : Int} {cr pl fee : Nat} {t1 t2 t3 cd rd : Int}
    {s : EscrowState}
    (h : create now cr pl fee t1 t2 t3 cd rd = .ok s) :
    MIN_FEE ≤ fee ∧ now < t1 ∧ t1 < t2 ∧ t2 < t3 ∧ 0 < cd ∧ 0 < rd ∧
    s = { ch := { creator := cr, platform := pl, entry_fee := fee,
                  start_time := t1, end_time := t2, judge_end := t3,
                  competition_duration := cd, refund_duration := rd,
                  total_entry_pool := 0, total_bet_pool := 0,
                  agent_count := 0, finalized := false, cancelled := false,
                  winner_index := 0, agent_ids := [], agent_owners := [],
                  vote_counts := [], agent_bet_pools := [],
                  withdrawn := [] },
          vault := 0, platformBal := 0, enrollRecords := [],
          betRecords := [], userBetTotals := [], voteRecords := [],
          claimRecords := [] } := by
  unfold create at h
  split at h
  · cases h
  split at h
  · cases h
  split at h
  · cases h
  split at h
  · cases h
  split at h
  · cases h
  split at h
  · cases h
  exact ⟨by omega, by omega, by omega, by omega, by omega, by omega,
    (Except.ok.inj h).symm⟩

/-- The inductive invariant of a single challenge's reachable states. -/
structure Inv (s : EscrowState) : Prop where
  len_owners : s.ch.agent_owners.length = s.ch.agent_ids.length
  len_votes : s.ch.vote_counts.length = s.ch.agent_ids.length
  len_pools : s.ch.agent_bet_pools.length = s.ch.agent_ids.length
  len_withdrawn : s.ch.withdrawn.length = s.ch.agent_ids.length
  count_eq : s.ch.agent_count = s.ch.agent_ids.length
  ids_nodup : s.ch.agent_ids.Nodup
  enroll_nodup : s.enrollRecords.Nodup
  claims_nodup : s.claimRecords.Nodup
  enroll_count : s.enrollRecords.length = s.ch.agent_ids.length
  not_both : ¬(s.ch.finalized = true ∧ s.ch.cancelled = true)
  times_ord : s.ch.start_time < s.ch.end_time ∧ s.ch.end_time < s.ch.judge_end
  entry_pool_eq :
    s.ch.total_entry_pool = s.ch.entry_fee * s.ch.active_agent_count
  bet_pool_pools : s.ch.total_bet_pool = s.ch.agent_bet_pools.sum
  bet_pool_records :
    s.ch.total_bet_pool = (s.betRecords.map (fun e => e.2)).sum
  bet_pool_totals :
    s.ch.total_bet_pool = (s.userBetTotals.map (fun e => e.2)).sum
  pool_at : ∀ i, i < s.ch.agent_ids.length →
    s.ch.agent_bet_pools.getD i 0 =
      ((s.betRecords.filter
          (fun e => decide (e.1.2 = s.ch.agent_ids.getD i 0))).map
        (fun e => e.2)).sum
  bets_on_agents : ∀ e ∈ s.betRecords, e.1.2 ∈ s.ch.agent_ids
  claims_empty : s.ch.finalized = false → s.ch.cancelled = false →
    s.claimRecords = []
  vault_covers : s.ch.finalized = false → s.ch.cancelled = false →
    s.ch.total_entry_pool + s.ch.total_bet_pool ≤ s.vault
  winner_valid : s.ch.finalized = true →
    s.ch.winner_index < s.ch.agent_ids.length ∧
    s.ch.withdrawn.getD s.ch.winner_index false = false

theorem inv_create {now : Int} {cr pl fee : Nat} {t1 t2 t3 cd rd : Int}
    {s : EscrowState}
    (h : create now cr pl fee t1 t2 t3 cd rd = .ok s) :
    Inv s ∧ (s.ch.finalized = true → s.ch.judge_end < now) := by
  obtain ⟨hfee, h1, h2, h3, h4, h5, rfl⟩ := create_ok h
  refine ⟨?_, by intro hx; cases hx⟩
  exact {
    len_owners := rfl, len_votes := rfl, len_pools := rfl,
    len_withdrawn := rfl, count_eq := rfl,
    ids_nodup := List.nodup_nil, enroll_nodup := List.nodup_nil,
    claims_nodup := List.nodup_nil, enroll_count := rfl,
    not_both := by simp,
    times_ord := ⟨h2, h3⟩,
    entry_pool_eq := by simp [Challenge.active_agent_count],
    bet_pool_pools := rfl, bet_pool_records := rfl, bet_pool_totals := rfl,
    pool_at := by intro i hi; exact absurd hi (by simp),
    bets_on_agents := by intro e he; exact absurd he (by simp),
    claims_empty := fun _ _ => rfl,
    vault_covers := fun _ _ => by simp,
    winner_valid := fun hx => by exact absurd hx (by simp) }

end Sol

namespace Sol

theorem inv_enroll {t now : Int} {s s' : EscrowState} {a aid : Nat}
    (hInv : Inv s) (hft : s.ch.finalized = true → s.ch.judge_end < t)
    (htn : t ≤ now) (h : enroll s now a aid = .ok s') :
    Inv s' ∧ (s'.ch.finalized = true → s'.ch.judge_end < now) := by
  obtain ⟨hmem, hnow, hcanc, hcount, haid, hlt, rfl⟩ := enroll_ok h
  have hfin : s.ch.finalized = false := by
    by_contra hx
    have hx' : s.ch.finalized = true := by
      revert hx
      cases s.ch.finalized <;> simp
    have := hft hx'
    obtain ⟨ht1, ht2⟩ := hInv.times_ord
    omega
  refine ⟨?_, ?_⟩
  swap
  · intro hx
    have hx' : s.ch.finalized = true := hx
    rw [hfin] at hx'
    cases hx'
  refine {
    len_owners := by simp [hInv.len_owners],
    len_votes := by simp [hInv.len_votes],
    len_pools := by simp [hInv.len_pools],
    len_withdrawn := by simp [hInv.len_withdrawn],
    count_eq := by simp [hInv.count_eq],
    ids_nodup := by
      rw [List.nodup_append]
      refine ⟨hInv.ids_nodup, by simp, ?_⟩
      intro x hx hy
      rw [List.mem_singleton] at hy
      exact haid (hy ▸ hx),
    enroll_nodup := List.nodup_cons.mpr ⟨hmem, hInv.enroll_nodup⟩,
    claims_nodup := hInv.claims_nodup,
    enroll_count := by simp [hInv.enroll_count],
    not_both := ?_, times_ord := hInv.times_ord,
    entry_pool_eq := ?_,
    bet_pool_pools := by simp [hInv.bet_pool_pools],
    bet_pool_records := hInv.bet_pool_records,
    bet_pool_totals := hInv.bet_pool_totals,
    pool_at := ?_, bets_on_agents := ?_,
    claims_empty := fun _ _ => hInv.claims_empty hfin hcanc,
    vault_covers := ?_,
    winner_valid := ?_ }
  · intro hboth
    obtain ⟨h1, h2⟩ := hboth
    have h1' : s.ch.finalized = true := h1
    rw [hfin] at h1'
    cases h1'
  · show s.ch.total_entry_pool + s.ch.entry_fee
      = s.ch.entry_fee * ((s.ch.withdrawn ++ [false]).filter (fun w => !w)).length
    rw [active_append_false, Nat.mul_add, Nat.mul_one, hInv.entry_pool_eq]
    rfl
  · intro i hi
    have hi' : i < s.ch.agent_ids.length + 1 := by simpa using hi
    rcases Nat.lt_or_ge i s.ch.agent_ids.length with hlt2 | hge
    · have e1 : (s.ch.agent_bet_pools ++ [0]).getD i 0
          = s.ch.agent_bet_pools.getD i 0 :=
        List.getD_append _ _ _ _ (hInv.len_pools ▸ hlt2)
      have e2 : (s.ch.agent_ids ++ [aid]).getD i 0 = s.ch.agent_ids.getD i 0 :=
        List.getD_append _ _ _ _ hlt2
      show (s.ch.agent_bet_pools ++ [0]).getD i 0 = _
      rw [e1, e2]
      exact hInv.pool_at i hlt2
    · have hie : i = s.ch.agent_ids.length := by omega
      have hlp : s.ch.agent_bet_pools.length = s.ch.agent_ids.length :=
        hInv.len_pools
      have e1 : (s.ch.agent_bet_pools ++ [0]).getD i 0 = 0 := by
        rw [List.getD_append_right _ _ _ _ (by omega)]
        simp [hie, hlp]
      have e2 : (s.ch.agent_ids ++ [aid]).getD i 0 = aid := by
        rw [List.getD_append_right _ _ _ _ (by omega)]
        simp [hie]
      show (s.ch.agent_bet_pools ++ [0]).getD i 0 = _
      rw [e1, e2]
      have : s.betRecords.filter (fun e => decide (e.1.2 = aid)) = [] := by
        rw [List.filter_eq_nil_iff]
        intro e he
        simp only [decide_eq_true_eq]
        intro hx
        exact haid (hx ▸ hInv.bets_on_agents e he)
      rw [this]
      rfl
  · intro e he
    exact List.mem_append.mpr (Or.inl (hInv.bets_on_agents e he))
  · intro _ _
    have := hInv.vault_covers hfin hcanc
    show s.ch.total_entry_pool + s.ch.entry_fee + s.ch.total_bet_pool
      ≤ s.vault + s.ch.entry_fee
    omega
  · intro hx
    have hx' : s.ch.finalized = true := hx
    rw [hfin] at hx'
    cases hx'

end Sol

namespace Sol

theorem mem_relevant_enroll {s : EscrowState} {x : Nat}
    (hx : x ∈ s.enrollRecords) : x ∈ relevantAccounts s := by
  unfold relevantAccounts
  rw [List.mem_dedup]
  simp only [List.mem_append]
  exact Or.inl (Or.inl (Or.inl hx))

theorem mem_relevant_ubt {s : EscrowState} {x : Nat}
    (hx : x ∈ s.userBetTotals.map (fun e => e.1)) :
    x ∈ relevantAccounts s := by
  unfold relevantAccounts
  rw [List.mem_dedup]
  simp only [List.mem_append]
  exact Or.inl (Or.inl (Or.inr hx))

theorem mem_relevant_bet {s : EscrowState} {x : Nat}
    (hx : x ∈ s.betRecords.map (fun e => e.1.1)) :
    x ∈ relevantAccounts s := by
  unfold relevantAccounts
  rw [List.mem_dedup]
  simp only [List.mem_append]
  exact Or.inl (Or.inr hx)

theorem mem_relevant_creator {s : EscrowState} :
    s.ch.creator ∈ relevantAccounts s := by
  unfold relevantAccounts
  rw [List.mem_dedup]
  simp

theorem mem_relevant_owner {s : EscrowState} {x : Nat}
    (hx : x ∈ s.ch.agent_owners) : x ∈ relevantAccounts s := by
  unfold relevantAccounts
  rw [List.mem_dedup]
  simp only [List.mem_append, List.mem_cons]
  exact Or.inr (Or.inr hx)

theorem inv_bet {now : Int} {s s' : EscrowState} {bettor aid amount : Nat}
    (hInv : Inv s) (h : bet s now bettor aid amount = .ok s') :
    Inv s' ∧ (s'.ch.finalized = true → s'.ch.judge_end < now) := by
  obtain ⟨hcanc, hfin, hp1, hp2, hamt, hlt1, hlt2, hlt4, i, hfind, hwd,
    hlt3, rfl⟩ := bet_ok h
  obtain ⟨hi, hidi⟩ := findAgentIdx_some hfind
  have hip : i < s.ch.agent_bet_pools.length := hInv.len_pools ▸ hi
  refine ⟨?_, ?_⟩
  swap
  · intro hx
    have hx' : s.ch.finalized = true := hx
    rw [hfin] at hx'
    cases hx'
  refine {
    len_owners := hInv.len_owners, len_votes := hInv.len_votes,
    len_pools := by simp [hInv.len_pools],
    len_withdrawn := hInv.len_withdrawn, count_eq := hInv.count_eq,
    ids_nodup := hInv.ids_nodup, enroll_nodup := hInv.enroll_nodup,
    claims_nodup := hInv.claims_nodup, enroll_count := hInv.enroll_count,
    not_both := ?_, times_ord := hInv.times_ord,
    entry_pool_eq := hInv.entry_pool_eq,
    bet_pool_pools := ?_, bet_pool_records := ?_, bet_pool_totals := ?_,
    pool_at := ?_, bets_on_agents := ?_,
    claims_empty := fun _ _ => hInv.claims_empty hfin hcanc,
    vault_covers := ?_,
    winner_valid := ?_ }
  · intro hboth
    obtain ⟨h1, h2⟩ := hboth
    have h1' : s.ch.finalized = true := h1
    rw [hfin] at h1'
    cases h1'
  · show s.ch.total_bet_pool + amount
      = (s.ch.agent_bet_pools.set i (s.ch.agent_bet_pools.getD i 0 + amount)).sum
    have hs := sum_set (s.ch.agent_bet_pools.getD i 0 + amount) hip
    have hb := hInv.bet_pool_pools
    omega
  · show s.ch.total_bet_pool + amount
      = ((((bettor, aid), amount) :: s.betRecords).map (fun e => e.2)).sum
    have hb := hInv.bet_pool_records
    simp only [List.map_cons, List.sum_cons]
    omega
  · show s.ch.total_bet_pool + amount
      = (((bettor, amount) :: s.userBetTotals).map (fun e => e.2)).sum
    have hb := hInv.bet_pool_totals
    simp only [List.map_cons, List.sum_cons]
    omega
  · intro j hj
    have hj' : j < s.ch.agent_ids.length := hj
    by_cases hij : j = i
    · subst hij
      show (s.ch.agent_bet_pools.set j (s.ch.agent_bet_pools.getD j 0 + amount)).getD j 0 = _
      rw [getD_set_self hip]
      have hpa := hInv.pool_at j hj'
      rw [List.filter_cons]
      have hcond : (decide ((((bettor, aid), amount) : (Nat × Nat) × Nat).1.2
          = s.ch.agent_ids.getD j 0)) = true := by
        simp only [decide_eq_true_eq]
        exact hidi.symm
      rw [hcond, if_pos rfl]
      simp only [List.map_cons, List.sum_cons]
      omega
    · show (s.ch.agent_bet_pools.set i (s.ch.agent_bet_pools.getD i 0 + amount)).getD j 0 = _
      rw [getD_set_ne (fun hx => hij hx.symm)]
      have hpa := hInv.pool_at j hj'
      rw [List.filter_cons]
      have hcond : (decide ((((bettor, aid), amount) : (Nat × Nat) × Nat).1.2
          = s.ch.agent_ids.getD j 0)) = false := by
        simp only [decide_eq_false_iff_not]
        intro hx
        exact nodup_getD_ne hInv.ids_nodup hi hj' (fun hx2 => hij hx2.symm)
          (by rw [hidi, hx])
      rw [hcond]
      simp only [Bool.false_eq_true, if_false]
      exact hpa
  · intro e he
    rcases List.mem_cons.mp he with rfl | he'
    · show aid ∈ s.ch.agent_ids
      rw [← hidi]
      exact getD_mem_of_lt hi
    · exact hInv.bets_on_agents e he'
  · intro _ _
    have := hInv.vault_covers hfin hcanc
    show s.ch.total_entry_pool + (s.ch.total_bet_pool + amount)
      ≤ s.vault + amount
    omega
  · intro hx
    have hx' : s.ch.finalized = true := hx
    rw [hfin] at hx'
    cases hx'

theorem inv_vote {now : Int} {s s' : EscrowState} {voter aid bal : Nat}
    (hInv : Inv s) (h : vote s now voter aid bal = .ok s') :
    Inv s' ∧ (s'.ch.finalized = true → s'.ch.judge_end < now) := by
  obtain ⟨hvr, hcanc, hfin, hq, hp1, hp2, i, hfind, hwd, hltv, rfl⟩ :=
    vote_ok h
  refine ⟨?_, ?_⟩
  swap
  · intro hx
    have hx' : s.ch.finalized = true := hx
    rw [hfin] at hx'
    cases hx'
  refine {
    len_owners := hInv.len_owners,
    len_votes := by simp [hInv.len_votes],
    len_pools := hInv.len_pools,
    len_withdrawn := hInv.len_withdrawn, count_eq := hInv.count_eq,
    ids_nodup := hInv.ids_nodup, enroll_nodup := hInv.enroll_nodup,
    claims_nodup := hInv.claims_nodup, enroll_count := hInv.enroll_count,
    not_both := ?_, times_ord := hInv.times_ord,
    entry_pool_eq := hInv.entry_pool_eq,
    bet_pool_pools := hInv.bet_pool_pools,
    bet_pool_records := hInv.bet_pool_records,
    bet_pool_totals := hInv.bet_pool_totals,
    pool_at := fun j hj => hInv.pool_at j hj,
    bets_on_agents := fun e he => hInv.bets_on_agents e he,
    claims_empty := fun _ _ => hInv.claims_empty hfin hcanc,
    vault_covers := fun _ _ => hInv.vault_covers hfin hcanc,
    winner_valid := ?_ }
  · intro hboth
    obtain ⟨h1, h2⟩ := hboth
    have h1' : s.ch.finalized = true := h1
    rw [hfin] at h1'
    cases h1'
  · intro hx
    have hx' : s.ch.finalized = true := hx
    rw [hfin] at hx'
    cases hx'

end Sol

namespace Sol

theorem inv_cancel {now : Int} {s s' : EscrowState}
    (hInv : Inv s) (h : cancel s now = .ok s') :
    Inv s' ∧ (s'.ch.finalized = true → s'.ch.judge_end < now) := by
  obtain ⟨hfin, hcanc, hnow, hq, rfl⟩ := cancel_ok h
  have hcr : s.claimRecords = [] := hInv.claims_empty hfin hcanc
  refine ⟨?_, ?_⟩
  swap
  · intro hx
    have hx' : s.ch.finalized = true := hx
    rw [hfin] at hx'
    cases hx'
  refine {
    len_owners := hInv.len_owners, len_votes := hInv.len_votes,
    len_pools := hInv.len_pools, len_withdrawn := hInv.len_withdrawn,
    count_eq := hInv.count_eq, ids_nodup := hInv.ids_nodup,
    enroll_nodup := hInv.enroll_nodup, claims_nodup := hInv.claims_nodup,
    enroll_count := hInv.enroll_count,
    not_both := ?_, times_ord := hInv.times_ord,
    entry_pool_eq := hInv.entry_pool_eq,
    bet_pool_pools := hInv.bet_pool_pools,
    bet_pool_records := hInv.bet_pool_records,
    bet_pool_totals := hInv.bet_pool_totals,
    pool_at := fun j hj => hInv.pool_at j hj,
    bets_on_agents := fun e he => hInv.bets_on_agents e he,
    claims_empty := ?_, vault_covers := ?_,
    winner_valid := ?_ }
  · intro hboth
    obtain ⟨h1, h2⟩ := hboth
    have h1' : s.ch.finalized = true := h1
    rw [hfin] at h1'
    cases h1'
  · intro _ h2
    have h2' : (true : Bool) = false := h2
    cases h2'
  · intro _ h2
    have h2' : (true : Bool) = false := h2
    cases h2'
  · intro hx
    have hx' : s.ch.finalized = true := hx
    rw [hfin] at hx'
    cases hx'

end Sol

namespace Sol

theorem refund_peek_le_fee (fee : Nat) :
    fee * REFUND_PCT / 100 + fee * PEEK_FEE_PCT / 100 ≤ fee := by
  have h1 := div_add_div_le (fee * REFUND_PCT) (fee * PEEK_FEE_PCT) 100
  have h2 : fee * REFUND_PCT + fee * PEEK_FEE_PCT = fee * 100 := by
    unfold REFUND_PCT PEEK_FEE_PCT
    omega
  have h3 : fee * 100 / 100 = fee := Nat.mul_div_cancel _ (by norm_num)
  omega

theorem inv_withdraw {now : Int} {s s' : EscrowState}
    {caller aid refund peek : Nat}
    (hInv : Inv s) (h : withdraw s now caller aid = .ok (s', refund, peek)) :
    Inv s' ∧ (s'.ch.finalized = true → s'.ch.judge_end < now) := by
  obtain ⟨hmem, hfin, hcanc, hn1, hn2, hm1, hm2, hr, hp, hv, hfee, i, hfind,
    hwd, howner, rfl⟩ := withdraw_ok h
  obtain ⟨hi, hidi⟩ := findAgentIdx_some hfind
  have hiw : i < s.ch.withdrawn.length := hInv.len_withdrawn ▸ hi
  have hact := active_set_true hiw hwd
  refine ⟨?_, ?_⟩
  swap
  · intro hx
    have hx' : s.ch.finalized = true := hx
    rw [hfin] at hx'
    cases hx'
  refine {
    len_owners := hInv.len_owners, len_votes := hInv.len_votes,
    len_pools := hInv.len_pools,
    len_withdrawn := by simp [hInv.len_withdrawn],
    count_eq := hInv.count_eq, ids_nodup := hInv.ids_nodup,
    enroll_nodup := hInv.enroll_nodup, claims_nodup := hInv.claims_nodup,
    enroll_count := hInv.enroll_count,
    not_both := ?_, times_ord := hInv.times_ord,
    entry_pool_eq := ?_,
    bet_pool_pools := hInv.bet_pool_pools,
    bet_pool_records := hInv.bet_pool_records,
    bet_pool_totals := hInv.bet_pool_totals,
    pool_at := fun j hj => hInv.pool_at j hj,
    bets_on_agents := fun e he => hInv.bets_on_agents e he,
    claims_empty := fun _ _ => hInv.claims_empty hfin hcanc,
    vault_covers := ?_,
    winner_valid := ?_ }
  · intro hboth
    obtain ⟨h1, h2⟩ := hboth
    have h1' : s.ch.finalized = true := h1
    rw [hfin] at h1'
    cases h1'
  · show s.ch.total_entry_pool - s.ch.entry_fee
      = s.ch.entry_fee * ((s.ch.withdrawn.set i true).filter (fun w => !w)).length
    have he2 : s.ch.total_entry_pool = s.ch.entry_fee
        * (((s.ch.withdrawn.set i true).filter (fun w => !w)).length + 1) := by
      rw [hInv.entry_pool_eq]
      have : s.ch.active_agent_count
          = ((s.ch.withdrawn.set i true).filter (fun w => !w)).length + 1 := by
        unfold Challenge.active_agent_count
        omega
      rw [this]
    rw [he2, Nat.mul_add, Nat.mul_one, Nat.add_sub_cancel]
  · intro _ _
    have hcov := hInv.vault_covers hfin hcanc
    have hrp := refund_peek_le_fee s.ch.entry_fee
    show s.ch.total_entry_pool - s.ch.entry_fee + s.ch.total_bet_pool
      ≤ s.vault - (refund + peek)
    omega
  · intro hx
    have hx' : s.ch.finalized = true := hx
    rw [hfin] at hx'
    cases hx'

end Sol

theorem betOf_le_pool_filter (E : List ((Nat × Nat) × Nat)) (a wid : Nat) :
    keySum E (a, wid)
      ≤ ((E.filter (fun e => decide (e.1.2 = wid))).map (fun e => e.2)).sum := by
  rw [keySum_pair_slice]
  unfold keySum
  calc ((((E.filter (fun e => decide (e.1.2 = wid))).map
            (fun e => (e.1.1, e.2))).filter
          (fun e => decide (e.1 = a))).map (fun e => e.2)).sum
      ≤ (((E.filter (fun e => decide (e.1.2 = wid))).map
            (fun e => (e.1.1, e.2))).map (fun e => e.2)).sum :=
        List.Sublist.sum_le_sum
          (List.Sublist.map _ (List.filter_sublist _))
          (fun x _ => Nat.zero_le _)
    _ = ((E.filter (fun e => decide (e.1.2 = wid))).map (fun e => e.2)).sum := by
        rw [List.map_map]
        rfl

namespace Sol

theorem mem_relevant_of_settle_pos {s : EscrowState} {a : Nat}
    (hInv : Inv s) (hterm : s.ch.finalized = true ∨ s.ch.cancelled = true)
    (h : 0 < settle s a) : a ∈ relevantAccounts s := by
  unfold settle at h
  by_cases hc : s.ch.cancelled = true
  · rw [if_pos hc] at h
    unfold settleCancelled at h
    by_cases hm : a ∈ s.enrollRecords
    · exact mem_relevant_enroll hm
    · rw [if_neg hm, Nat.zero_add] at h
      exact mem_relevant_ubt (mem_of_keySum_pos h)
  · rw [if_neg hc] at h
    have hfin : s.ch.finalized = true := by
      rcases hterm with hx | hx
      · exact hx
      · exact absurd hx hc
    unfold settleFinalized at h
    by_cases h1 : a = s.ch.agent_owners.getD s.ch.winner_index 0
    · have hw := (hInv.winner_valid hfin).1
      have hwo : s.ch.winner_index < s.ch.agent_owners.length :=
        hInv.len_owners ▸ hw
      rw [h1]
      exact mem_relevant_owner (getD_mem_of_lt hwo)
    · by_cases h2 : a = s.ch.creator
      · rw [h2]
        exact mem_relevant_creator
      · rw [if_neg h1, if_neg h2] at h
        simp only [Nat.zero_add] at h
        have hb : 0 < betOf s a
            (s.ch.agent_ids.getD s.ch.winner_index 0) := by
          by_cases hcond : 0 < betOf s a
              (s.ch.agent_ids.getD s.ch.winner_index 0)
            ∧ 0 < s.ch.agent_bet_pools.getD s.ch.winner_index 0
          · exact hcond.1
          · rw [if_neg hcond] at h
            omega
        have hkey := mem_of_keySum_pos hb
        rw [List.mem_map] at hkey
        obtain ⟨e, he, heq⟩ := hkey
        refine mem_relevant_bet ?_
        rw [List.mem_map]
        refine ⟨e, he, ?_⟩
        rw [heq]

theorem claimPayout_le_settle {s : EscrowState} {a v : Nat}
    {er : Option Nat} {wb : Option (Nat × Nat)} {ub : Option Nat}
    (hInv : Inv s)
    (hterm : s.ch.finalized = true ∨ s.ch.cancelled = true)
    (her : er = none ∨ er = some a)
    (hwb : wb = none ∨
      wb = some (a, s.ch.agent_ids.getD s.ch.winner_index 0))
    (hub : ub = none ∨ ub = some a)
    (herm : ∀ e, er = some e → e ∈ s.enrollRecords)
    (h : claimPayout s a er wb ub = .ok v) : v ≤ settle s a := by
  by_cases hc : s.ch.cancelled = true
  · unfold claimPayout at h
    rw [if_pos hc] at h
    split at h
    · cases h
    next p1 hp1 =>
    have hp1v : p1 ≤ (if a ∈ s.enrollRecords then s.ch.entry_fee else 0) := by
      rcases her with rfl | rfl
      · simp only [Option.isSome_none, Bool.false_eq_true, if_false] at hp1
        cases hp1
        exact Nat.zero_le _
      · rw [if_pos (by simp)] at hp1
        obtain ⟨hb, he⟩ := oadd_ok hp1
        have hm : a ∈ s.enrollRecords := herm a rfl
        rw [if_pos hm]
        omega
    rcases hub with rfl | rfl
    · have hv := Except.ok.inj (h : (Except.ok p1 : Except Err Nat) = .ok v)
      unfold settle settleCancelled
      rw [if_pos hc]
      omega
    · have h' : oadd p1 (ubtOf s a) = .ok v := h
      obtain ⟨hb, rfl⟩ := oadd_ok h'
      unfold settle settleCancelled
      rw [if_pos hc]
      omega
  · have hfin : s.ch.finalized = true := by
      rcases hterm with hx | hx
      · exact hx
      · exact absurd hx hc
    unfold claimPayout at h
    rw [if_neg hc] at h
    split at h
    · cases h
    next p1 hs1 =>
    split at h
    · cases h
    next p2 hs2 =>
    have hp1v : p1 = (if a = s.ch.agent_owners.getD s.ch.winner_index 0 then
        s.ch.total_entry_pool * EW / 100 else 0) := by
      by_cases hwo : a = s.ch.agent_owners.getD s.ch.winner_index 0
      · rw [if_pos hwo] at hs1
        rw [if_pos hwo]
        split at hs1
        · cases hs1
        next ew hew =>
          obtain ⟨hb1, rfl⟩ := omul_ok hew
          obtain ⟨hb2, h2⟩ := oadd_ok hs1
          omega
      · rw [if_neg hwo] at hs1
        rw [if_neg hwo]
        exact (Except.ok.inj hs1).symm
    have hp2v : p2 = p1 + (if a = s.ch.creator then
        s.ch.total_entry_pool * EC / 100 + s.ch.total_bet_pool * BC / 100
        else 0) := by
      by_cases hcr : a = s.ch.creator
      · rw [if_pos hcr] at hs2
        rw [if_pos hcr]
        split at hs2
        · cases hs2
        next ec hec =>
        split at hs2
        · cases hs2
        next bc hbc =>
        split at hs2
        · cases hs2
        next q hq =>
        obtain ⟨hb1, rfl⟩ := omul_ok hec
        obtain ⟨hb2, rfl⟩ := omul_ok hbc
        obtain ⟨hb3, rfl⟩ := oadd_ok hq
        obtain ⟨hb4, h4⟩ := oadd_ok hs2
        omega
      · rw [if_neg hcr] at hs2
        rw [if_neg hcr]
        have := (Except.ok.inj hs2).symm
        omega
    rcases hwb with rfl | rfl
    · have hv := Except.ok.inj (h : (Except.ok p2 : Except Err Nat) = .ok v)
      unfold settle settleFinalized
      rw [if_neg hc]
      omega
    · have h3 : (if 0 < betOf s a (s.ch.agent_ids.getD s.ch.winner_index 0)
          then
            if 0 < s.ch.agent_bet_pools.getD s.ch.winner_index 0 then
              match omul s.ch.total_bet_pool BW with
              | .error e => .error e
              | .ok pool =>
                oadd p2 (pool / 100
                  * betOf s a (s.ch.agent_ids.getD s.ch.winner_index 0)
                  / s.ch.agent_bet_pools.getD s.ch.winner_index 0 % U64)
            else .ok p2
          else .ok p2 : Except Err Nat) = .ok v := h
      by_cases hb : 0 < betOf s a (s.ch.agent_ids.getD s.ch.winner_index 0)
      · rw [if_pos hb] at h3
        by_cases hpp : 0 < s.ch.agent_bet_pools.getD s.ch.winner_index 0
        · rw [if_pos hpp] at h3
          split at h3
          · cases h3
          next pool hpool =>
          obtain ⟨hbw, rfl⟩ := omul_ok hpool
          obtain ⟨hb5, rfl⟩ := oadd_ok h3
          have hble : betOf s a (s.ch.agent_ids.getD s.ch.winner_index 0)
              ≤ s.ch.agent_bet_pools.getD s.ch.winner_index 0 := by
            have hw := (hInv.winner_valid hfin).1
            rw [hInv.pool_at s.ch.winner_index hw]
            exact betOf_le_pool_filter s.betRecords a _
          have hshare : s.ch.total_bet_pool * BW / 100
              * betOf s a (s.ch.agent_ids.getD s.ch.winner_index 0)
              / s.ch.agent_bet_pools.getD s.ch.winner_index 0 < U64 := by
            have hstep : s.ch.total_bet_pool * BW / 100
                * betOf s a (s.ch.agent_ids.getD s.ch.winner_index 0)
                / s.ch.agent_bet_pools.getD s.ch.winner_index 0
                ≤ s.ch.total_bet_pool * BW / 100 := by
              calc s.ch.total_bet_pool * BW / 100
                  * betOf s a (s.ch.agent_ids.getD s.ch.winner_index 0)
                  / s.ch.agent_bet_pools.getD s.ch.winner_index 0
                  ≤ s.ch.total_bet_pool * BW / 100
                    * s.ch.agent_bet_pools.getD s.ch.winner_index 0
                    / s.ch.agent_bet_pools.getD s.ch.winner_index 0 :=
                    Nat.div_le_div_right (Nat.mul_le_mul_left _ hble)
                _ = s.ch.total_bet_pool * BW / 100 :=
                    Nat.mul_div_cancel _ hpp
            have hds : s.ch.total_bet_pool * BW / 100
                ≤ s.ch.total_bet_pool * BW := Nat.div_le_self _ _
            omega
          rw [Nat.mod_eq_of_lt hshare]
          unfold settle settleFinalized
          have hcond : 0 < betOf s a (s.ch.agent_ids.getD s.ch.winner_index 0)
              ∧ 0 < s.ch.agent_bet_pools.getD s.ch.winner_index 0 := ⟨hb, hpp⟩
          rw [if_neg hc, if_pos hcond]
          omega
        · rw [if_neg hpp] at h3
          have hv := (Except.ok.inj h3).symm
          unfold settle settleFinalized
          rw [if_neg hc]
          omega
      · rw [if_neg hb] at h3
        have hv := (Except.ok.inj h3).symm
        unfold settle settleFinalized
        rw [if_neg hc]
        omega

theorem inv_claim {t now : Int} {s s' : EscrowState} {a amt : Nat}
    {er : Option Nat} {wb : Option (Nat × Nat)} {ub : Option Nat}
    (hInv : Inv s) (hft : s.ch.finalized = true → s.ch.judge_end < t)
    (htn : t ≤ now) (h : claim s a er wb ub = .ok (s', amt)) :
    Inv s' ∧ (s'.ch.finalized = true → s'.ch.judge_end < now) := by
  obtain ⟨hcr, -, -, -, hterm, hpay, hpos, hle, rfl⟩ := claim_ok h
  refine ⟨?_, fun hf => lt_of_lt_of_le (hft hf) htn⟩
  exact {
    len_owners := hInv.len_owners,
    len_votes := hInv.len_votes,
    len_pools := hInv.len_pools,
    len_withdrawn := hInv.len_withdrawn,
    count_eq := hInv.count_eq,
    ids_nodup := hInv.ids_nodup,
    enroll_nodup := hInv.enroll_nodup,
    claims_nodup := List.nodup_cons.mpr ⟨hcr, hInv.claims_nodup⟩,
    enroll_count := hInv.enroll_count,
    not_both := hInv.not_both,
    times_ord := hInv.times_ord,
    entry_pool_eq := hInv.entry_pool_eq,
    bet_pool_pools := hInv.bet_pool_pools,
    bet_pool_records := hInv.bet_pool_records,
    bet_pool_totals := hInv.bet_pool_totals,
    pool_at := hInv.pool_at,
    bets_on_agents := hInv.bets_on_agents,
    claims_empty := fun h1 h2 => by
      dsimp only at h1 h2
      exact absurd hterm (by simp [h1, h2]),
    vault_covers := fun h1 h2 => by
      dsimp only at h1 h2
      exact absurd hterm (by simp [h1, h2]),
    winner_valid := fun hf => hInv.winner_valid hf }

theorem sum_map_ite_eq2 {κ : Type} [DecidableEq κ] (L : List κ) (x : κ)
    (c : Nat) (hL : L.Nodup) :
    (L.map (fun a => if a = x then c else 0)).sum = if x ∈ L then c else 0 := by
  have h : L.map (fun a => if a = x then c else 0)
      = L.map (fun a => if x = a then c else 0) := by
    refine List.map_congr_left ?_
    intro a _
    by_cases hx : a = x
    · subst hx
      simp
    · rw [if_neg hx, if_neg (fun hh => hx hh.symm)]
  rw [h, sum_map_ite_eq L x c hL]

theorem inv_finalize {now : Int} {s s' : EscrowState} {fee : Nat}
    (hInv : Inv s) (h : finalize s now = .ok (s', fee)) :
    Inv s' ∧ (s'.ch.finalized = true → s'.ch.judge_end < now) := by
  obtain ⟨hfin, hcanc, hnow, hq, hb1, hb2, hfee, hfv, rfl⟩ := finalize_ok h
  have hcr : s.claimRecords = [] := hInv.claims_empty hfin hcanc
  have hlen2 : s.ch.withdrawn.length = s.ch.vote_counts.length := by
    have h1 := hInv.len_withdrawn
    have h2 := hInv.len_votes
    omega
  have hact : 0 < (s.ch.withdrawn.filter (fun w => !w)).length := by
    have : MIN_AGENTS ≤ s.ch.active_agent_count := hq
    unfold Challenge.active_agent_count MIN_AGENTS at this
    omega
  have hex0 := exists_active_of_pos hact
  have hex : ∃ k, k < s.ch.vote_counts.length ∧
      s.ch.withdrawn.getD k false = false := by
    obtain ⟨k, hk1, hk2⟩ := hex0
    exact ⟨k, by omega, hk2⟩
  obtain ⟨k, hkv, hkw, hw1, hw2, hmax, hfirst, hflag⟩ :=
    winnerAux_found s.ch.vote_counts s.ch.withdrawn 0 0 0 hlen2 hex
  have hwieq : (winnerAux s.ch.vote_counts s.ch.withdrawn 0 (0, 0, false)).1
      = k := by
    rw [hw1]
    exact Nat.zero_add k
  have hk_lt_ids : k < s.ch.agent_ids.length := by
    have h2 := hInv.len_votes
    omega
  refine ⟨?_, fun _ => hnow⟩
  refine {
    len_owners := hInv.len_owners, len_votes := hInv.len_votes,
    len_pools := hInv.len_pools, len_withdrawn := hInv.len_withdrawn,
    count_eq := hInv.count_eq, ids_nodup := hInv.ids_nodup,
    enroll_nodup := hInv.enroll_nodup, claims_nodup := hInv.claims_nodup,
    enroll_count := hInv.enroll_count,
    not_both := ?_, times_ord := hInv.times_ord,
    entry_pool_eq := hInv.entry_pool_eq,
    bet_pool_pools := hInv.bet_pool_pools,
    bet_pool_records := hInv.bet_pool_records,
    bet_pool_totals := hInv.bet_pool_totals,
    pool_at := fun j hj => hInv.pool_at j hj,
    bets_on_agents := fun e he => hInv.bets_on_agents e he,
    claims_empty := ?_, vault_covers := ?_,
    winner_valid := ?_ }
  · intro hboth
    have h2 : s.ch.cancelled = true := hboth.2
    rw [hcanc] at h2
    cases h2
  · intro h1
    have h1' : (true : Bool) = false := h1
    cases h1'
  · intro h1
    have h1' : (true : Bool) = false := h1
    cases h1'
  · intro _
    refine ⟨?_, ?_⟩
    · show (winnerAux s.ch.vote_counts s.ch.withdrawn 0 (0, 0, false)).1
        < s.ch.agent_ids.length
      rw [hwieq]
      exact hk_lt_ids
    · show s.ch.withdrawn.getD
        (winnerAux s.ch.vote_counts s.ch.withdrawn 0 (0, 0, false)).1 false
        = false
      rw [hwieq]
      exact hkw

theorem reachable_inv {t : Int} {s : EscrowState} (h : ReachableAt t s) :
    Inv s ∧ (s.ch.finalized = true → s.ch.judge_end < t) := by
  induction h with
  | created now cr pl fee t1 t2 t3 cd rd s0 hc => exact inv_create hc
  | step u now s0 s1 hr htn hstep ih =>
    obtain ⟨hInv, hft⟩ := ih
    cases hstep with
    | enroll a aid he => exact inv_enroll hInv hft htn he
    | bet a aid amt hb => exact inv_bet hInv hb
    | vote a aid bal hv => exact inv_vote hInv hv
    | cancel hc => exact inv_cancel hInv hc
    | finalize f hf => exact inv_finalize hInv hf
    | claim a amt er wb ub hc => exact inv_claim hInv hft htn hc
    | withdraw a aid r p hw => exact inv_withdraw hInv hw

/-- Every successful instruction preserves membership in the claim ledger. -/
theorem step_claimMem {s s' : EscrowState} {a : Nat} (h : StepRel s s')
    (hm : a ∈ s.claimRecords) : a ∈ s'.claimRecords := by
  obtain ⟨now, hstep⟩ := h
  cases hstep with
  | enroll b aid he =>
    obtain ⟨-, -, -, -, -, -, rfl⟩ := enroll_ok he
    exact hm
  | bet b aid amt hb =>
    obtain ⟨-, -, -, -, -, -, -, -, i, -, -, -, rfl⟩ := bet_ok hb
    exact hm
  | vote b aid bal hv =>
    obtain ⟨-, -, -, -, -, -, i, -, -, -, rfl⟩ := vote_ok hv
    exact hm
  | cancel hc =>
    obtain ⟨-, -, -, -, rfl⟩ := cancel_ok hc
    exact hm
  | finalize f hf =>
    obtain ⟨-, -, -, -, -, -, -, -, rfl⟩ := finalize_ok hf
    exact hm
  | claim b amt er wb ub hc =>
    obtain ⟨-, -, -, -, -, -, -, -, rfl⟩ := claim_ok hc
    exact List.mem_cons_of_mem _ hm
  | withdraw b aid r p hw =>
    obtain ⟨-, -, -, -, -, -, -, -, -, -, -, i, -, -, -, rfl⟩ := withdraw_ok hw
    exact hm

/-- Once a reachable challenge is finalized, no later instruction can alter
the challenge record (in particular the winner index and agent arrays are
frozen); only `claim` can still succeed and it touches no `ch` field. -/
theorem step_frozen {t now : Int} {s s2 : EscrowState}
    (hr : ReachableAt t s) (hfin : s.ch.finalized = true) (htn : t ≤ now)
    (hstep : StepAt now s s2) : s2.ch = s.ch := by
  obtain ⟨hInv, hft⟩ := reachable_inv hr
  have hje := hft hfin
  obtain ⟨hto1, hto2⟩ := hInv.times_ord
  cases hstep with
  | enroll b aid he =>
    obtain ⟨-, hnow, -, -, -, -, rfl⟩ := enroll_ok he
    exfalso
    omega
  | bet b aid amt hb =>
    obtain ⟨-, hf2, -⟩ := bet_ok hb
    rw [hfin] at hf2
    cases hf2
  | vote b aid bal hv =>
    obtain ⟨-, -, hf2, -⟩ := vote_ok hv
    rw [hfin] at hf2
    cases hf2
  | cancel hc =>
    obtain ⟨hf2, -⟩ := cancel_ok hc
    rw [hfin] at hf2
    cases hf2
  | finalize f hf =>
    obtain ⟨hf2, -⟩ := finalize_ok hf
    rw [hfin] at hf2
    cases hf2
  | claim b amt er wb ub hc =>
    obtain ⟨-, -, -, -, -, -, -, -, rfl⟩ := claim_ok hc
    rfl
  | withdraw b aid r p hw =>
    obtain ⟨-, hf2, -⟩ := withdraw_ok hw
    rw [hfin] at hf2
    cases hf2


/-- A cancel on a challenge with no withdrawn agent leaves the vault
covering every refund obligation. -/
theorem cancel_obligations {now : Int} {s s' : EscrowState}
    (hInv : Inv s) (h : cancel s now = .ok s')
    (hall : ∀ w ∈ s.ch.withdrawn, w = false) :
    obligations s' ≤ s'.vault := by
  obtain ⟨hfin, hcanc, hnow, hq, rfl⟩ := cancel_ok h
  have hcr : s.claimRecords = [] := hInv.claims_empty hfin hcanc
  show obligations { s with ch := { s.ch with cancelled := true } } ≤ s.vault
  have h1 : obligations { s with ch := { s.ch with cancelled := true } } =
      (((relevantAccounts s).filter
          (fun a => decide (a ∉ s.claimRecords))).map
        (fun a => (if a ∈ s.enrollRecords then s.ch.entry_fee else 0)
          + keySum s.userBetTotals a)).sum := by
    unfold obligations
    rw [if_pos (by simp)]
    refine congrArg List.sum (List.map_congr_left ?_)
    intro a _
    simp [settle, settleCancelled, ubtOf]
  rw [h1, hcr]
  rw [List.filter_eq_self.mpr (fun a _ => by simp)]
  rw [List.sum_map_add]
  rw [sum_map_ite_mem (relevantAccounts s) s.enrollRecords s.ch.entry_fee]
  have hRnodup : (relevantAccounts s).Nodup := by
    unfold relevantAccounts
    exact List.nodup_dedup _
  rw [length_filter_mem hRnodup hInv.enroll_nodup
    (fun x hx => mem_relevant_enroll hx)]
  rw [sum_map_keySum (relevantAccounts s) s.userBetTotals hRnodup
    (fun e he => mem_relevant_ubt (List.mem_map_of_mem (fun e => e.1) he))]
  have hv := hInv.vault_covers hfin hcanc
  have hb := hInv.bet_pool_totals
  have h5 : s.enrollRecords.length = s.ch.active_agent_count := by
    have hec := hInv.enroll_count
    have hwl := hInv.len_withdrawn
    have hact := active_all_false hall
    unfold Challenge.active_agent_count
    omega
  have h6 : s.ch.entry_fee * s.enrollRecords.length
      = s.ch.total_entry_pool := by
    rw [h5, ← hInv.entry_pool_eq]
  omega

/-- A successful finalize leaves the vault (after the platform fee) covering
every intended winner-owner, creator and winning-bettor payout. -/
theorem finalize_obligations {now : Int} {s s' : EscrowState} {fee : Nat}
    (hInv : Inv s) (h : finalize s now = .ok (s', fee)) :
    obligations s' ≤ s'.vault := by
  obtain ⟨hfin, hcanc, hnow, hq, hb1, hb2, hfee, hfv, rfl⟩ := finalize_ok h
  have hcr : s.claimRecords = [] := hInv.claims_empty hfin hcanc
  have hlen2 : s.ch.withdrawn.length = s.ch.vote_counts.length := by
    have h1 := hInv.len_withdrawn
    have h2 := hInv.len_votes
    omega
  have hact : 0 < (s.ch.withdrawn.filter (fun w => !w)).length := by
    have hq' : MIN_AGENTS ≤ s.ch.active_agent_count := hq
    unfold Challenge.active_agent_count MIN_AGENTS at hq'
    omega
  have hex : ∃ k, k < s.ch.vote_counts.length ∧
      s.ch.withdrawn.getD k false = false := by
    obtain ⟨k, hk1, hk2⟩ := exists_active_of_pos hact
    exact ⟨k, by omega, hk2⟩
  obtain ⟨k, hkv, hkw, hw1, hw2, hmax, hfirst, hflag⟩ :=
    winnerAux_found s.ch.vote_counts s.ch.withdrawn 0 0 0 hlen2 hex
  have hwieq : (winnerAux s.ch.vote_counts s.ch.withdrawn 0 (0, 0, false)).1
      = k := by
    rw [hw1]
    exact Nat.zero_add k
  have hk_lt_ids : k < s.ch.agent_ids.length := by
    have h2 := hInv.len_votes
    omega
  show obligations { s with
      ch := { s.ch with
        winner_index :=
          (winnerAux s.ch.vote_counts s.ch.withdrawn 0 (0, 0, false)).1,
        finalized := true },
      vault := s.vault - fee, platformBal := s.platformBal + fee }
    ≤ s.vault - fee
  have h1 : obligations { s with
      ch := { s.ch with
        winner_index :=
          (winnerAux s.ch.vote_counts s.ch.withdrawn 0 (0, 0, false)).1,
        finalized := true },
      vault := s.vault - fee, platformBal := s.platformBal + fee }
      = (((relevantAccounts s).filter
          (fun a => decide (a ∉ s.claimRecords))).map
        (fun a =>
          ((if a = s.ch.agent_owners.getD k 0 then
              s.ch.total_entry_pool * EW / 100 else 0)
            + (if a = s.ch.creator then
              s.ch.total_entry_pool * EC / 100
                + s.ch.total_bet_pool * BC / 100 else 0))
          + (if 0 < betOf s a (s.ch.agent_ids.getD k 0)
                ∧ 0 < s.ch.agent_bet_pools.getD k 0 then
              s.ch.total_bet_pool * BW / 100
                * betOf s a (s.ch.agent_ids.getD k 0)
                / s.ch.agent_bet_pools.getD k 0
            else 0))).sum := by
    unfold obligations
    rw [if_pos (by simp)]
    refine congrArg List.sum (List.map_congr_left ?_)
    intro a _
    simp [settle, settleFinalized, betOf, hcanc, hwieq]
  rw [h1, hcr]
  rw [List.filter_eq_self.mpr (fun a _ => by simp)]
  rw [List.sum_map_add, List.sum_map_add]
  have hRnodup : (relevantAccounts s).Nodup := by
    unfold relevantAccounts
    exact List.nodup_dedup _
  have hS1 : ((relevantAccounts s).map (fun a =>
      if a = s.ch.agent_owners.getD k 0 then
        s.ch.total_entry_pool * EW / 100 else 0)).sum
      ≤ s.ch.total_entry_pool * EW / 100 := by
    rw [sum_map_ite_eq2 _ _ _ hRnodup]
    split
    · exact Nat.le_refl _
    · exact Nat.zero_le _
  have hS2 : ((relevantAccounts s).map (fun a =>
      if a = s.ch.creator then
        s.ch.total_entry_pool * EC / 100
          + s.ch.total_bet_pool * BC / 100 else 0)).sum
      ≤ s.ch.total_entry_pool * EC / 100
          + s.ch.total_bet_pool * BC / 100 := by
    rw [sum_map_ite_eq2 _ _ _ hRnodup]
    split
    · exact Nat.le_refl _
    · exact Nat.zero_le _
  have hstep1 : ((relevantAccounts s).map (fun a =>
      if 0 < betOf s a (s.ch.agent_ids.getD k 0)
          ∧ 0 < s.ch.agent_bet_pools.getD k 0 then
        s.ch.total_bet_pool * BW / 100
          * betOf s a (s.ch.agent_ids.getD k 0)
          / s.ch.agent_bet_pools.getD k 0
      else 0)).sum
      ≤ ((relevantAccounts s).map (fun a =>
        s.ch.total_bet_pool * BW / 100
          * betOf s a (s.ch.agent_ids.getD k 0)
          / s.ch.agent_bet_pools.getD k 0)).sum := by
    refine List.sum_le_sum ?_
    intro a _
    split
    · exact Nat.le_refl _
    · exact Nat.zero_le _
  have hstep2 : ((relevantAccounts s).map (fun a =>
      s.ch.total_bet_pool * BW / 100
        * betOf s a (s.ch.agent_ids.getD k 0)
        / s.ch.agent_bet_pools.getD k 0)).sum
      ≤ ((relevantAccounts s).map (fun a =>
        s.ch.total_bet_pool * BW / 100
          * betOf s a (s.ch.agent_ids.getD k 0))).sum
        / s.ch.agent_bet_pools.getD k 0 :=
    sum_map_div_le (relevantAccounts s)
      (fun a => s.ch.total_bet_pool * BW / 100
        * betOf s a (s.ch.agent_ids.getD k 0))
      (s.ch.agent_bet_pools.getD k 0)
  have hstep3 : ((relevantAccounts s).map (fun a =>
      s.ch.total_bet_pool * BW / 100
        * betOf s a (s.ch.agent_ids.getD k 0))).sum
      = s.ch.total_bet_pool * BW / 100
        * ((relevantAccounts s).map
          (fun a => betOf s a (s.ch.agent_ids.getD k 0))).sum := by
    rw [List.sum_map_mul_left]
  have hstep4 : ((relevantAccounts s).map
      (fun a => betOf s a (s.ch.agent_ids.getD k 0))).sum
      = s.ch.agent_bet_pools.getD k 0 := by
    have hslice : ∀ a ∈ relevantAccounts s,
        betOf s a (s.ch.agent_ids.getD k 0)
        = keySum ((s.betRecords.filter
            (fun e => decide (e.1.2 = s.ch.agent_ids.getD k 0))).map
          (fun e => (e.1.1, e.2))) a := fun a _ =>
      keySum_pair_slice s.betRecords a _
    rw [List.map_congr_left hslice]
    have hmemp : ∀ e ∈ (s.betRecords.filter
        (fun e => decide (e.1.2 = s.ch.agent_ids.getD k 0))).map
          (fun e => (e.1.1, e.2)), e.1 ∈ relevantAccounts s := by
      intro e he
      rw [List.mem_map] at he
      obtain ⟨b, hb, rfl⟩ := he
      exact mem_relevant_bet
        (List.mem_map_of_mem _ (List.mem_filter.mp hb).1)
    rw [sum_map_keySum _ _ hRnodup hmemp]
    rw [List.map_map]
    rw [hInv.pool_at k hk_lt_ids]
    rfl
  have hWle : s.ch.total_bet_pool * BW / 100
      * s.ch.agent_bet_pools.getD k 0
      / s.ch.agent_bet_pools.getD k 0
      ≤ s.ch.total_bet_pool * BW / 100 := by
    rcases Nat.eq_zero_or_pos (s.ch.agent_bet_pools.getD k 0) with hz | hz
    · rw [hz]
      simp
    · rw [Nat.mul_div_cancel _ hz]
  have hE : s.ch.total_entry_pool * EW / 100
      + s.ch.total_entry_pool * EC / 100
      + s.ch.total_entry_pool * EP / 100 ≤ s.ch.total_entry_pool := by
    have d1 := div_add_div_le (s.ch.total_entry_pool * EW)
      (s.ch.total_entry_pool * EC) 100
    have d2 := div_add_div_le
      (s.ch.total_entry_pool * EW + s.ch.total_entry_pool * EC)
      (s.ch.total_entry_pool * EP) 100
    have h3 : s.ch.total_entry_pool * EW + s.ch.total_entry_pool * EC
        + s.ch.total_entry_pool * EP = s.ch.total_entry_pool * 100 := by
      unfold EW EC EP
      omega
    have h4 : s.ch.total_entry_pool * 100 / 100 = s.ch.total_entry_pool :=
      Nat.mul_div_cancel _ (by norm_num)
    rw [h3, h4] at d2
    omega
  have hB : s.ch.total_bet_pool * BW / 100
      + s.ch.total_bet_pool * BC / 100
      + s.ch.total_bet_pool * BP / 100 ≤ s.ch.total_bet_pool := by
    have d1 := div_add_div_le (s.ch.total_bet_pool * BW)
      (s.ch.total_bet_pool * BC) 100
    have d2 := div_add_div_le
      (s.ch.total_bet_pool * BW + s.ch.total_bet_pool * BC)
      (s.ch.total_bet_pool * BP) 100
    have h3 : s.ch.total_bet_pool * BW + s.ch.total_bet_pool * BC
        + s.ch.total_bet_pool * BP = s.ch.total_bet_pool * 100 := by
      unfold BW BC BP
      omega
    have h4 : s.ch.total_bet_pool * 100 / 100 = s.ch.total_bet_pool :=
      Nat.mul_div_cancel _ (by norm_num)
    rw [h3, h4] at d2
    omega
  have hstep5 : ((relevantAccounts s).map (fun a =>
      s.ch.total_bet_pool * BW / 100
        * betOf s a (s.ch.agent_ids.getD k 0))).sum
        / s.ch.agent_bet_pools.getD k 0
      ≤ s.ch.total_bet_pool * BW / 100 := by
    rw [hstep3, hstep4]
    exact hWle
  have hvc := hInv.vault_covers hfin hcanc
  omega

/-- A claim that presents only the claimant's own records never pushes the
outstanding obligations above the vault balance. -/
theorem claim_solvent {s s' : EscrowState} {a amt : Nat}
    {er : Option Nat} {wb : Option (Nat × Nat)} {ub : Option Nat}
    (hInv : Inv s)
    (her : er = none ∨ er = some a)
    (hwb : wb = none ∨
      wb = some (a, s.ch.agent_ids.getD s.ch.winner_index 0))
    (hub : ub = none ∨ ub = some a)
    (h : claim s a er wb ub = .ok (s', amt))
    (hob : obligations s ≤ s.vault) :
    obligations s' ≤ s'.vault := by
  obtain ⟨hcr, herm, -, -, hterm, hpay, hpos, hle, rfl⟩ := claim_ok h
  have hler : amt ≤ settle s a :=
    claimPayout_le_settle hInv hterm her hwb hub herm hpay
  have hsp : 0 < settle s a := lt_of_lt_of_le hpos hler
  have hmem : a ∈ relevantAccounts s :=
    mem_relevant_of_settle_pos hInv hterm hsp
  have hRnodup : (relevantAccounts s).Nodup := by
    unfold relevantAccounts
    exact List.nodup_dedup _
  have hor : (s.ch.finalized || s.ch.cancelled) = true := by
    rcases hterm with hx | hx <;> simp [hx]
  have hkey : (((relevantAccounts s).filter
        (fun x => decide (x ∉ a :: s.claimRecords))).map (settle s)).sum
        + settle s a
      = (((relevantAccounts s).filter
        (fun x => decide (x ∉ s.claimRecords))).map (settle s)).sum :=
    sum_filter_erase (settle s) hRnodup hmem hcr
  have hRA : relevantAccounts { s with
      vault := s.vault - amt,
      claimRecords := a :: s.claimRecords } = relevantAccounts s := rfl
  have hSE : settle { s with
      vault := s.vault - amt,
      claimRecords := a :: s.claimRecords } = settle s := rfl
  have hO : obligations { s with
      vault := s.vault - amt,
      claimRecords := a :: s.claimRecords } + settle s a = obligations s := by
    unfold obligations
    dsimp only
    rw [hRA, hSE, if_pos hor, if_pos hor]
    exact hkey
  show obligations _ ≤ s.vault - amt
  omega

/-- Every honest instruction is an instruction. -/
theorem honest_step {now : Int} {s s' : EscrowState}
    (h : HonestStepAt now s s') : StepAt now s s' := by
  cases h with
  | enroll a aid he => exact StepAt.enroll _ _ _ a aid he
  | bet a aid amt hb => exact StepAt.bet _ _ _ a aid amt hb
  | vote a aid bal hv => exact StepAt.vote _ _ _ a aid bal hv
  | cancel hc => exact StepAt.cancel _ _ _ hc
  | finalize f hf => exact StepAt.finalize _ _ _ f hf
  | claim a amt er wb ub her hwb hub hc =>
    exact StepAt.claim _ _ _ a amt er wb ub hc
  | withdraw a aid r p hw => exact StepAt.withdraw _ _ _ a aid r p hw

/-- Every honestly-reachable state is reachable. -/
theorem honest_reach {t : Int} {s : EscrowState}
    (h : HonestReachableAt t s) : ReachableAt t s := by
  induction h with
  | created now cr pl fee t1 t2 t3 cd rd s0 hc =>
    exact ReachableAt.created now cr pl fee t1 t2 t3 cd rd s0 hc
  | step u now s0 s1 hr htn hstep ih =>
    exact ReachableAt.step u now s0 s1 ih htn (honest_step hstep)

/-- Along honest traces the vault covers all outstanding obligations of a
finalized challenge, and of a cancelled challenge with no withdrawal. -/
theorem honest_solvent {t : Int} {s : EscrowState}
    (h : HonestReachableAt t s) :
    (s.ch.finalized = true → obligations s ≤ s.vault) ∧
    (s.ch.cancelled = true → (∀ w ∈ s.ch.withdrawn, w = false) →
      obligations s ≤ s.vault) := by
  induction h with
  | created now cr pl fee t1 t2 t3 cd rd s0 hc =>
    obtain ⟨-, -, -, -, -, -, rfl⟩ := create_ok hc
    exact ⟨fun hx => Bool.noConfusion hx, fun hx _ => Bool.noConfusion hx⟩
  | step u now s0 s1 hr htn hstep ih =>
    have hreach : ReachableAt u s0 := honest_reach hr
    obtain ⟨hInv, hft⟩ := reachable_inv hreach
    cases hstep with
    | enroll a aid he =>
      obtain ⟨-, hnow, hcanc, -, -, -, rfl⟩ := enroll_ok he
      constructor
      · intro hf1
        have hf0 : s0.ch.finalized = true := hf1
        have hje := hft hf0
        obtain ⟨hto1, hto2⟩ := hInv.times_ord
        exfalso
        omega
      · intro hc1 _
        have hc0 : s0.ch.cancelled = true := hc1
        rw [hcanc] at hc0
        cases hc0
    | bet a aid amt hb =>
      obtain ⟨hcanc, hfin, -, -, -, -, -, -, i, -, -, -, rfl⟩ := bet_ok hb
      constructor
      · intro hf1
        have hf0 : s0.ch.finalized = true := hf1
        rw [hfin] at hf0
        cases hf0
      · intro hc1 _
        have hc0 : s0.ch.cancelled = true := hc1
        rw [hcanc] at hc0
        cases hc0
    | vote a aid bal hv =>
      obtain ⟨-, hcanc, hfin, -, -, -, i, -, -, -, rfl⟩ := vote_ok hv
      constructor
      · intro hf1
        have hf0 : s0.ch.finalized = true := hf1
        rw [hfin] at hf0
        cases hf0
      · intro hc1 _
        have hc0 : s0.ch.cancelled = true := hc1
        rw [hcanc] at hc0
        cases hc0
    | cancel hc =>
      refine ⟨?_, fun _ hall1 => ?_⟩
      · intro hf1
        obtain ⟨hfin, -, -, -, rfl⟩ := cancel_ok hc
        have hf0 : s0.ch.finalized = true := hf1
        rw [hfin] at hf0
        cases hf0
      · obtain ⟨hfin, hcanc, -, -, rfl⟩ := cancel_ok hc
        have hall0 : ∀ w ∈ s0.ch.withdrawn, w = false := hall1
        exact cancel_obligations hInv hc hall0
    | finalize f hf =>
      refine ⟨fun _ => finalize_obligations hInv hf, ?_⟩
      intro hc1 _
      obtain ⟨-, hcanc, -, -, -, -, -, -, rfl⟩ := finalize_ok hf
      have hc0 : s0.ch.cancelled = true := hc1
      rw [hcanc] at hc0
      cases hc0
    | claim a amt er wb ub her hwb hub hc =>
      obtain ⟨-, -, -, -, -, -, -, -, hs1⟩ := claim_ok hc
      constructor
      · intro hf1
        have hf0 : s0.ch.finalized = true := by
          rw [hs1] at hf1
          exact hf1
        exact claim_solvent hInv her hwb hub hc (ih.1 hf0)
      · intro hc1 hall1
        have hc0 : s0.ch.cancelled = true := by
          rw [hs1] at hc1
          exact hc1
        have hall0 : ∀ w ∈ s0.ch.withdrawn, w = false := by
          rw [hs1] at hall1
          exact hall1
        exact claim_solvent hInv her hwb hub hc (ih.2 hc0 hall0)
    | withdraw a aid r p hw =>
      obtain ⟨-, hfin, hcanc, -, -, -, -, -, -, -, -, i, -, -, -, rfl⟩ :=
        withdraw_ok hw
      constructor
      · intro hf1
        have hf0 : s0.ch.finalized = true := hf1
        rw [hfin] at hf0
        cases hf0
      · intro hc1 _
        have hc0 : s0.ch.cancelled = true := hc1
        rw [hcanc] at hc0
        cases hc0

end Sol

/-- Claim C8: in every reachable state of a challenge that is neither
finalized nor cancelled, `total_entry_pool` equals `entry_fee` times the
number of non-withdrawn agents, and `total_bet_pool` equals both the sum of
the per-agent bet pools and the sum of all `BetRecord` amounts. -/
theorem C8_pools {t : Int} {s : Sol.EscrowState}
    (h : Sol.ReachableAt t s)
    (hf : s.ch.finalized = false) (hc : s.ch.cancelled = false) :
    s.ch.total_entry_pool = s.ch.entry_fee * s.ch.active_agent_count ∧
    s.ch.total_bet_pool = s.ch.agent_bet_pools.sum ∧
    s.ch.total_bet_pool = (s.betRecords.map (fun e => e.2)).sum := by
  obtain ⟨hInv, -⟩ := Sol.reachable_inv h
  exact ⟨hInv.entry_pool_eq, hInv.bet_pool_pools, hInv.bet_pool_records⟩

theorem C8_witness :
    Sol.trState2.ch.total_entry_pool
      = Sol.trState2.ch.entry_fee * Sol.trState2.ch.active_agent_count ∧
    Sol.trState2.ch.total_bet_pool = Sol.trState2.ch.agent_bet_pools.sum ∧
    Sol.trState2.ch.total_bet_pool
      = (Sol.trState2.betRecords.map (fun e => e.2)).sum := by
  have h0 : Sol.ReachableAt 0 Sol.trState0 :=
    Sol.ReachableAt.created 0 1 2 10000000 10 20 30 1 1 Sol.trState0
      (by decide)
  have h1 : Sol.ReachableAt 5 Sol.trState1 :=
    Sol.ReachableAt.step 0 5 Sol.trState0 Sol.trState1 h0 (by decide)
      (Sol.StepAt.enroll 5 Sol.trState0 Sol.trState1 3 100 (by decide))
  have h2 : Sol.ReachableAt 5 Sol.trState2 :=
    Sol.ReachableAt.step 5 5 Sol.trState1 Sol.trState2 h1 (by decide)
      (Sol.StepAt.enroll 5 Sol.trState1 Sol.trState2 4 101 (by decide))
  exact C8_pools h2 (by decide) (by decide)

/-- Claim C7: after one successful `claim` by an account, any second `claim`
by the same account on the same challenge fails with `AlreadyClaimed`, no
matter which instructions run in between, in both the cancelled and the
finalized branch. -/
theorem C7_no_double_claim {s s1 s2 : Sol.EscrowState} {a amt : Nat}
    {er er2 : Option Nat} {wb wb2 : Option (Nat × Nat)} {ub ub2 : Option Nat}
    (h1 : Sol.claim s a er wb ub = .ok (s1, amt))
    (h2 : Relation.ReflTransGen Sol.StepRel s1 s2) :
    Sol.claim s2 a er2 wb2 ub2 = .error .AlreadyClaimed := by
  have hmem : a ∈ s2.claimRecords := by
    induction h2 with
    | refl =>
      obtain ⟨-, -, -, -, -, -, -, -, rfl⟩ := Sol.claim_ok h1
      exact List.mem_cons_self a _
    | tail hr hstep ih => exact Sol.step_claimMem hstep ih
  unfold Sol.claim
  rw [if_pos hmem]

theorem C7_witness :
    Sol.claim Sol.trState5 3 (some 3) none none
      = .error .AlreadyClaimed :=
  C7_no_double_claim
    (by decide :
      Sol.claim Sol.trState4 3 (some 3) none none
        = .ok (Sol.trState5, 10000000))
    Relation.ReflTransGen.refl

/-- Claim C1 (counterexample): the solvency invariant is false, twice over.
(i) After create, two enrollments, one agent withdrawal (98% refund + 2%
peek fee paid out) and a cancel, the state is reachable, cancelled, and the
vault holds 10^7 lamports while the unclaimed refund obligations (both
enrollment records are still refundable by `claim`) total 2 * 10^7.
(ii) Even with no withdrawal at all: after cancelling a two-agent
challenge, the never-enrolled account `9` claims, presenting enrolled
account `3`'s `EnrollRecord` — the `Claim` accounts struct places no
ownership constraint on the optional records — and extracts a full
`entry_fee`, leaving a 10^7 vault against the two enrolled accounts'
still-unclaimed 2 * 10^7 of refunds. -/
theorem C1_solvency_cex :
    ((∃ t, Sol.ReachableAt t Sol.trState4) ∧
      Sol.trState4.ch.cancelled = true ∧
      Sol.trState4.vault < Sol.obligations Sol.trState4) ∧
    ((∃ t, Sol.ReachableAt t Sol.trDrain) ∧
      Sol.trDrain.ch.cancelled = true ∧
      (∀ w ∈ Sol.trDrain.ch.withdrawn, w = false) ∧
      Sol.trDrain.vault < Sol.obligations Sol.trDrain) := by
  have h0 : Sol.ReachableAt 0 Sol.trState0 :=
    Sol.ReachableAt.created 0 1 2 10000000 10 20 30 1 1 Sol.trState0
      (by decide)
  have h1 : Sol.ReachableAt 5 Sol.trState1 :=
    Sol.ReachableAt.step 0 5 Sol.trState0 Sol.trState1 h0 (by decide)
      (Sol.StepAt.enroll 5 Sol.trState0 Sol.trState1 3 100 (by decide))
  have h2 : Sol.ReachableAt 5 Sol.trState2 :=
    Sol.ReachableAt.step 5 5 Sol.trState1 Sol.trState2 h1 (by decide)
      (Sol.StepAt.enroll 5 Sol.trState1 Sol.trState2 4 101 (by decide))
  constructor
  · refine ⟨⟨16, ?_⟩, by decide, by decide⟩
    have h3 : Sol.ReachableAt 15 Sol.trState3 :=
      Sol.ReachableAt.step 5 15 Sol.trState2 Sol.trState3 h2 (by decide)
        (Sol.StepAt.withdraw 15 Sol.trState2 Sol.trState3 3 100 9800000
          200000 (by decide))
    exact Sol.ReachableAt.step 15 16 Sol.trState3 Sol.trState4 h3 (by decide)
      (Sol.StepAt.cancel 16 Sol.trState3 Sol.trState4 (by decide))
  · refine ⟨⟨16, ?_⟩, by decide, by decide, by decide⟩
    have h4 : Sol.ReachableAt 16 Sol.trCancel2 :=
      Sol.ReachableAt.step 5 16 Sol.trState2 Sol.trCancel2 h2 (by decide)
        (Sol.StepAt.cancel 16 Sol.trState2 Sol.trCancel2 (by decide))
    exact Sol.ReachableAt.step 16 16 Sol.trCancel2 Sol.trDrain h4 (by decide)
      (Sol.StepAt.claim 16 Sol.trCancel2 Sol.trDrain 9 10000000
        (some 3) none none (by decide))

/-- Claim C1 (amended): along traces in which every successful `claim`
presents only the claimant's own records (their `EnrollRecord`, their
`BetRecord` on the winning agent, their `UserBetTotal`) or omits them, the
vault covers all currently-payable-but-unclaimed obligations whenever the
challenge is finalized, or is cancelled with no prior agent withdrawal.
Both restrictions are necessary: the counterexample above reaches
insolvency through a withdrawal before cancel, and through a `claim`
presenting another account's record. -/
theorem C1_solvency_amended {t : Int} {s : Sol.EscrowState}
    (h : Sol.HonestReachableAt t s)
    (hterm : s.ch.finalized = true ∨
      (s.ch.cancelled = true ∧ ∀ w ∈ s.ch.withdrawn, w = false)) :
    Sol.obligations s ≤ s.vault := by
  have hs := Sol.honest_solvent h
  rcases hterm with hf | ⟨hc, hw⟩
  · exact hs.1 hf
  · exact hs.2 hc hw

theorem C1_witness :
    Sol.obligations Sol.trCancel2 ≤ Sol.trCancel2.vault := by
  have h0 : Sol.HonestReachableAt 0 Sol.trState0 :=
    Sol.HonestReachableAt.created 0 1 2 10000000 10 20 30 1 1 Sol.trState0
      (by decide)
  have h1 : Sol.HonestReachableAt 5 Sol.trState1 :=
    Sol.HonestReachableAt.step 0 5 Sol.trState0 Sol.trState1 h0 (by decide)
      (Sol.HonestStepAt.enroll 5 Sol.trState0 Sol.trState1 3 100 (by decide))
  have h2 : Sol.HonestReachableAt 5 Sol.trState2 :=
    Sol.HonestReachableAt.step 5 5 Sol.trState1 Sol.trState2 h1 (by decide)
      (Sol.HonestStepAt.enroll 5 Sol.trState1 Sol.trState2 4 101 (by decide))
  have h4 : Sol.HonestReachableAt 16 Sol.trCancel2 :=
    Sol.HonestReachableAt.step 5 16 Sol.trState2 Sol.trCancel2 h2 (by decide)
      (Sol.HonestStepAt.cancel 16 Sol.trState2 Sol.trCancel2 (by decide))
  exact C1_solvency_amended h4 (Or.inr ⟨by decide, by decide⟩)

/-- Claim C3 (counterexample): on the NEAR variant the finalized winner id
need not identify an enrolled agent.  With three enrolled agents and zero
votes everywhere the scan never fires (strict `>` against the initial
maximum 0), `unwrap_or_default()` turns `None` into the empty string, and
finalize stores `Some ""` which is not an enrolled agent id. -/
theorem C3_winner_cex :
    Near.finalize Near.nsZero 100
      = .ok (Near.nsZeroA, 600000000000000000000) ∧
    Near.nsZeroA.ch.winner_agent_id = some "" ∧
    "" ∉ Near.nsZeroA.agent_ids := by
  refine ⟨by decide, by decide, by decide⟩

/-- Claim C3 (amended): for a reachable Solana challenge, a successful
finalize selects as winner the first non-withdrawn agent attaining the
maximum vote count (strict greater-than scan in enrollment order, earlier
agent winning ties, including an all-zero maximum); the stored index is a
valid non-withdrawn agent and no later instruction can change any challenge
field.  On the NEAR variant the same first-strict-argmax description of the
stored winner id holds only when some agent has a positive vote count (the
counterexample above shows the all-zero case stores a non-agent id). -/
theorem C3_winner_amended {t now : Int} {s s' : Sol.EscrowState} {fee : Nat}
    (hr : Sol.ReachableAt t s) (htn : t ≤ now)
    (hf : Sol.finalize s now = .ok (s', fee)) :
    (∃ k, s'.ch.winner_index = k ∧ k < s.ch.agent_ids.length ∧
      s.ch.withdrawn.getD k false = false ∧
      (∀ j, j < s.ch.agent_ids.length → s.ch.withdrawn.getD j false = false →
        s.ch.vote_counts.getD j 0 ≤ s.ch.vote_counts.getD k 0) ∧
      (∀ j, j < k → s.ch.withdrawn.getD j false = false →
        s.ch.vote_counts.getD j 0 < s.ch.vote_counts.getD k 0)) ∧
    s'.ch.winner_index < s'.ch.agent_ids.length ∧
    s'.ch.withdrawn.getD s'.ch.winner_index false = false ∧
    (∀ (now2 : Int) (s2 : Sol.EscrowState), now ≤ now2 →
      Sol.StepAt now2 s' s2 → s2.ch = s'.ch) ∧
    (∀ (ns ns2 : Near.NearState) (m f2 : Nat),
      Near.finalize ns m = .ok (ns2, f2) →
      (∃ aid ∈ ns.agent_ids, 0 < Near.vcOf ns aid) →
      ∃ k, k < ns.agent_ids.length ∧
        ns2.ch.winner_agent_id = some (ns.agent_ids.getD k "") ∧
        (∀ aid ∈ ns.agent_ids,
          Near.vcOf ns aid ≤ Near.vcOf ns (ns.agent_ids.getD k "")) ∧
        (∀ j, j < k →
          Near.vcOf ns (ns.agent_ids.getD j "")
            < Near.vcOf ns (ns.agent_ids.getD k ""))) := by
  obtain ⟨hInv, -⟩ := Sol.reachable_inv hr
  obtain ⟨hfin, hcanc, hnow, hq, hb1, hb2, hfee, hfv, rfl⟩ :=
    Sol.finalize_ok hf
  have hlen2 : s.ch.withdrawn.length = s.ch.vote_counts.length := by
    have h1 := hInv.len_withdrawn
    have h2 := hInv.len_votes
    omega
  have hact : 0 < (s.ch.withdrawn.filter (fun w => !w)).length := by
    have hq' : Sol.MIN_AGENTS ≤ s.ch.active_agent_count := hq
    unfold Sol.Challenge.active_agent_count Sol.MIN_AGENTS at hq'
    omega
  have hex : ∃ k, k < s.ch.vote_counts.length ∧
      s.ch.withdrawn.getD k false = false := by
    obtain ⟨k, hk1, hk2⟩ := exists_active_of_pos hact
    exact ⟨k, by omega, hk2⟩
  obtain ⟨k, hkv, hkw, hw1, hw2, hmax, hfirst, hflag⟩ :=
    Sol.winnerAux_found s.ch.vote_counts s.ch.withdrawn 0 0 0 hlen2 hex
  have hwieq :
      (Sol.winnerAux s.ch.vote_counts s.ch.withdrawn 0 (0, 0, false)).1
      = k := by
    rw [hw1]
    exact Nat.zero_add k
  have hk_lt_ids : k < s.ch.agent_ids.length := by
    have h2 := hInv.len_votes
    omega
  refine ⟨⟨k, hwieq, hk_lt_ids, hkw, ?_, ?_⟩, ?_, ?_, ?_, ?_⟩
  · intro j hj hjw
    have h2 := hInv.len_votes
    exact hmax j (by omega) hjw
  · intro j hj hjw
    exact hfirst j hj hjw
  · show (Sol.winnerAux s.ch.vote_counts s.ch.withdrawn 0 (0, 0, false)).1
      < s.ch.agent_ids.length
    rw [hwieq]
    exact hk_lt_ids
  · show s.ch.withdrawn.getD
      (Sol.winnerAux s.ch.vote_counts s.ch.withdrawn 0 (0, 0, false)).1 false
      = false
    rw [hwieq]
    exact hkw
  · intro now2 s2 h2n hstep
    have hr' : Sol.ReachableAt now ({ s with
        ch := { s.ch with
          winner_index :=
            (Sol.winnerAux s.ch.vote_counts s.ch.withdrawn 0
              (0, 0, false)).1,
          finalized := true },
        vault := s.vault - fee,
        platformBal := s.platformBal + fee } : Sol.EscrowState) :=
      Sol.ReachableAt.step t now s _ hr htn
        (Sol.StepAt.finalize now s _ fee hf)
    exact Sol.step_frozen hr' rfl h2n hstep
  · intro ns ns2 m f2 hnf hpos
    obtain ⟨-, -, -, -, -, rfl⟩ := Near.near_finalize_ok hnf
    obtain ⟨hb0, hball, hdisj⟩ :=
      Near.nearWinnerAux_spec ns.agent_ids (Near.vcOf ns) none 0
    rcases hdisj with heq | ⟨j, hj, h1, h2, h3, h4⟩
    · exfalso
      obtain ⟨aid, hmem, hposv⟩ := hpos
      have hle := hball aid hmem
      rw [heq] at hle
      simp at hle
      omega
    · refine ⟨j, hj, ?_, ?_, ?_⟩
      · show some ((Near.nearWinnerAux ns.agent_ids (Near.vcOf ns)
            (none, 0)).1.getD "")
          = some (ns.agent_ids.getD j "")
        rw [h1]
        rfl
      · intro aid hm
        have hle := hball aid hm
        rw [h2] at hle
        exact hle
      · intro i hi
        exact h4 i hi

theorem C3_witness :
    Sol.trFinS.ch.winner_index < Sol.trFinS.ch.agent_ids.length ∧
    Sol.trFinS.ch.withdrawn.getD Sol.trFinS.ch.winner_index false
      = false := by
  have h0 : Sol.ReachableAt 0 Sol.trState0 :=
    Sol.ReachableAt.created 0 1 2 10000000 10 20 30 1 1 Sol.trState0
      (by decide)
  have h1 : Sol.ReachableAt 5 Sol.trState1 :=
    Sol.ReachableAt.step 0 5 Sol.trState0 Sol.trState1 h0 (by decide)
      (Sol.StepAt.enroll 5 Sol.trState0 Sol.trState1 3 100 (by decide))
  have h2 : Sol.ReachableAt 5 Sol.trState2 :=
    Sol.ReachableAt.step 5 5 Sol.trState1 Sol.trState2 h1 (by decide)
      (Sol.StepAt.enroll 5 Sol.trState1 Sol.trState2 4 101 (by decide))
  have h2c : Sol.ReachableAt 5 Sol.trState2c :=
    Sol.ReachableAt.step 5 5 Sol.trState2 Sol.trState2c h2 (by decide)
      (Sol.StepAt.enroll 5 Sol.trState2 Sol.trState2c 5 102 (by decide))
  have happ := C3_winner_amended h2c (by decide : (5 : Int) ≤ 31)
    (by decide : Sol.finalize Sol.trState2c 31 = .ok (Sol.trFinS, 300000))
  exact ⟨happ.2.1, happ.2.2.1⟩
